import Mathlib

/-!
Verification of the developer-web-mcp-server tool handlers (src/index.ts).

The file shallowly embeds the data model and the tool handlers of the
server: each handler is a pure function from its validated parameters and
an oracle describing the outcomes of its filesystem / subprocess queries
(each outcome an `Except String` value, mirroring a JavaScript call that
either resolves or throws) to the response envelope the handler returns.
JavaScript string primitives used by the source (`trim`, `split`,
`startsWith`, `repeat`) are modelled by structural functions over
`String.data` so that every definition evaluates.
-/

set_option maxHeartbeats 1000000

namespace DevWebMCP

/-! ## Models of the JavaScript string primitives used by the source -/

/-- Model of `List.isPrefixOf` for chars: `isPre p s` holds when `p` is a
prefix of `s` (used to model JavaScript `String.startsWith`). -/
def isPre : List Char → List Char → Bool
  | [], _ => true
  | _ :: _, [] => false
  | c :: cs, d :: ds => c == d && isPre cs ds

/-- Model of JavaScript `s.startsWith(pre)`. -/
def jsStartsWith (s pre : String) : Bool :=
  isPre pre.data s.data

/-- Model of JavaScript `s.trim()`: strip whitespace from both ends. -/
def jsTrim (s : String) : String :=
  ⟨((s.data.dropWhile Char.isWhitespace).reverse.dropWhile Char.isWhitespace).reverse⟩

/-- Split a character list at every occurrence of the separator `c`,
keeping empty groups (model of JavaScript `String.split` with a
one-character separator, and of the glob library's path segmentation). -/
def splitCharAux (c : Char) : List Char → List (List Char)
  | [] => [[]]
  | d :: ds =>
    match splitCharAux c ds with
    | [] => [[]]
    | g :: gs => if d = c then [] :: g :: gs else (d :: g) :: gs

/-- Model of JavaScript `s.split(c)` for a one-character separator. -/
def jsSplit (s : String) (c : Char) : List String :=
  (splitCharAux c s.data).map fun l => ⟨l⟩

/-- Model of JavaScript `"  ".repeat(n)`-style string repetition. -/
def jsRepeat (s : String) (n : Nat) : String :=
  String.join (List.replicate n s)

/-! ## The response envelope (the uniform tool result shape) -/

/-- A content item of a tool response; in this server the kind
discriminator is always `"text"`. -/
inductive ContentItem where
  | text (s : String)
deriving DecidableEq, Repr

/-- The response envelope: `return { content: [ { type: "text", text } ] }`. -/
structure Envelope where
  content : List ContentItem
deriving DecidableEq, Repr

/-- Envelope with a single text item, the only shape the source builds. -/
def textEnvelope (s : String) : Envelope :=
  ⟨[ContentItem.text s]⟩

/-- Model of the `try { ... } catch (error) { ... }` wrapper every handler
has: a successful body yields its text, a thrown error yields the
handler's error prefix followed by the message. -/
def wrapResult (errPrefix : String) : Except String String → Envelope
  | .ok s => textEnvelope s
  | .error e => textEnvelope (errPrefix ++ e)

/-! ## Directory tree model and the `analyzeDir` renderer
(`get_project_structure`, src/index.ts lines 190–211) -/

/-- A filesystem entry as seen by the renderer: a plain file or a
directory with its children in the order `readdir` returns them. -/
inductive FSEntry where
  | file (name : String)
  | dir (name : String) (children : List FSEntry)

/-- Name of an entry. -/
def FSEntry.name : FSEntry → String
  | .file n => n
  | .dir n _ => n

/-- Whether `stats.isDirectory()` holds for the entry. -/
def FSEntry.isDirB : FSEntry → Bool
  | .file _ => false
  | .dir _ _ => true

/-- The renderer's fixed skip rule:
`item.startsWith(".") || item === "node_modules"`. -/
def excluded (name : String) : Bool :=
  jsStartsWith name "." || name == "node_modules"

/-- One rendered line, as structured data: the depth used for
indentation, the directory flag, and the entry name. -/
abbrev RenderedLine := Nat × Bool × String

/-- The loop body of `analyzeDir`: walk the listed entries at
`currentDepth`, skipping excluded names; a directory contributes its own
line and then its children one level deeper — the recursive
`analyzeDir` call returns nothing once `maxDepth <= currentDepth + 1`
(the `if (currentDepth >= maxDepth) return ""` guard of the source,
inlined at the call site). Produces the list of rendered lines. -/
def analyzeDirItems (maxDepth : Nat) : List FSEntry → Nat → List RenderedLine
  | [], _ => []
  | .file n :: rest, currentDepth =>
    (if excluded n then [] else [(currentDepth, false, n)])
      ++ analyzeDirItems maxDepth rest currentDepth
  | .dir n children :: rest, currentDepth =>
    (if excluded n then []
     else (currentDepth, true, n) ::
       (if maxDepth ≤ currentDepth + 1 then []
        else analyzeDirItems maxDepth children (currentDepth + 1)))
      ++ analyzeDirItems maxDepth rest currentDepth

/-- `analyzeDir`, line-structured: the depth guard at function entry,
then the loop over the directory listing. -/
def analyzeDirLines (maxDepth : Nat) (entries : List FSEntry) (currentDepth : Nat) :
    List RenderedLine :=
  if maxDepth ≤ currentDepth then [] else analyzeDirItems maxDepth entries currentDepth

/-- Render one line exactly as the source does:
``"  ".repeat(currentDepth)`` then `📁 name/` for a directory or
`📄 name` for a file, each terminated by a newline. -/
def renderLine : RenderedLine → String
  | (depth, true, n) => jsRepeat "  " depth ++ "📁 " ++ n ++ "/\n"
  | (depth, false, n) => jsRepeat "  " depth ++ "📄 " ++ n ++ "\n"

/-- The string built by the loop body of `analyzeDir` (source lines
193–210): each visited entry appends its line, directories additionally
append their recursively rendered children. -/
def analyzeDirStrItems (maxDepth : Nat) : List FSEntry → Nat → String
  | [], _ => ""
  | .file n :: rest, currentDepth =>
    (if excluded n then ""
     else jsRepeat "  " currentDepth ++ "📄 " ++ n ++ "\n")
      ++ analyzeDirStrItems maxDepth rest currentDepth
  | .dir n children :: rest, currentDepth =>
    (if excluded n then ""
     else jsRepeat "  " currentDepth ++ "📁 " ++ n ++ "/\n" ++
       (if maxDepth ≤ currentDepth + 1 then ""
        else analyzeDirStrItems maxDepth children (currentDepth + 1)))
      ++ analyzeDirStrItems maxDepth rest currentDepth

/-- `analyzeDir` (source lines 190–211): returns `""` once
`currentDepth >= maxDepth`, otherwise renders the listing. -/
def analyzeDir (maxDepth : Nat) (entries : List FSEntry) (currentDepth : Nat) : String :=
  if maxDepth ≤ currentDepth then "" else analyzeDirStrItems maxDepth entries currentDepth

/-- Remove every excluded entry, and the subtree below it, from a
directory listing (the entries the fixed skip rule hides). -/
def pruneEntries : List FSEntry → List FSEntry
  | [] => []
  | .file n :: rest =>
    if excluded n then pruneEntries rest else .file n :: pruneEntries rest
  | .dir n children :: rest =>
    if excluded n then pruneEntries rest
    else .dir n (pruneEntries children) :: pruneEntries rest

/-- `VisibleAt entries k e`: entry `e` sits `k` levels below the listing
`entries`, every ancestor on the way down being a non-excluded directory,
and `e` itself not excluded — i.e. `e` is an entry the walk can reach. -/
inductive VisibleAt : List FSEntry → Nat → FSEntry → Prop where
  | here {entries : List FSEntry} {e : FSEntry} :
      e ∈ entries → excluded e.name = false → VisibleAt entries 0 e
  | deeper {entries : List FSEntry} {n : String} {children : List FSEntry}
      {k : Nat} {e : FSEntry} :
      FSEntry.dir n children ∈ entries → excluded n = false →
      VisibleAt children k e → VisibleAt entries (k + 1) e

/-- Structural induction over directory listings, recursing both into the
children of a directory entry and into the tail of the listing. -/
theorem fsListInduction (P : List FSEntry → Prop)
    (hnil : P [])
    (hfile : ∀ n rest, P rest → P (FSEntry.file n :: rest))
    (hdir : ∀ n children rest, P children → P rest → P (FSEntry.dir n children :: rest)) :
    ∀ entries, P entries := by
  have key : ∀ N entries, sizeOf entries ≤ N → P entries := by
    intro N
    induction N with
    | zero =>
      intro entries h
      match entries with
      | [] => exact hnil
      | e :: rest => simp [List.cons.sizeOf_spec] at h
    | succ N ih =>
      intro entries h
      match entries with
      | [] => exact hnil
      | FSEntry.file n :: rest =>
        refine hfile n rest (ih rest ?_)
        simp [List.cons.sizeOf_spec, FSEntry.file.sizeOf_spec] at h
        omega
      | FSEntry.dir n children :: rest =>
        refine hdir n children rest (ih children ?_) (ih rest ?_) <;>
          · simp [List.cons.sizeOf_spec, FSEntry.dir.sizeOf_spec] at h
            omega
  exact fun entries => key (sizeOf entries) entries le_rfl

/-- Every line produced by the loop at `currentDepth` is at depth at
least `currentDepth`, and is either a line for a listed entry (depth
exactly `currentDepth`) or a strictly depth-guarded descendant line
(depth below `maxDepth`). -/
theorem analyzeDirItems_depth (maxDepth : Nat) (entries : List FSEntry) :
    ∀ currentDepth l, l ∈ analyzeDirItems maxDepth entries currentDepth →
      currentDepth ≤ l.1 ∧ (l.1 = currentDepth ∨ l.1 < maxDepth) := by
  induction entries using fsListInduction with
  | hnil => intro d l h; simp [analyzeDirItems] at h
  | hfile n rest ih =>
    intro d l h
    simp only [analyzeDirItems, List.mem_append] at h
    rcases h with h | h
    · cases hx : excluded n with
      | true => simp [hx] at h
      | false =>
        simp [hx] at h
        subst h
        exact ⟨le_rfl, Or.inl rfl⟩
    · exact ih d l h
  | hdir n children rest ihc ih =>
    intro d l h
    simp only [analyzeDirItems, List.mem_append] at h
    rcases h with h | h
    · cases hx : excluded n with
      | true => simp [hx] at h
      | false =>
        simp [hx] at h
        rcases h with h | ⟨hlt, h⟩
        · subst h; exact ⟨le_rfl, Or.inl rfl⟩
        · have := ihc (d + 1) l h
          omega
    · exact ih d l h

/-- Non-excluded listed entries always get their own line. -/
theorem mem_analyzeDirItems_of_mem (maxDepth : Nat) {entries : List FSEntry}
    {e : FSEntry} (he : e ∈ entries) (hx : excluded e.name = false)
    (currentDepth : Nat) :
    (currentDepth, e.isDirB, e.name) ∈ analyzeDirItems maxDepth entries currentDepth := by
  induction entries with
  | nil => simp at he
  | cons a rest ih =>
    rcases List.mem_cons.mp he with h | h
    · subst h
      cases e with
      | file n => simp [analyzeDirItems, FSEntry.name] at hx ⊢; simp [hx, FSEntry.name, FSEntry.isDirB]
      | dir n children => simp [analyzeDirItems, FSEntry.name] at hx ⊢; simp [hx, FSEntry.name, FSEntry.isDirB]
    · cases a with
      | file m => simp [analyzeDirItems]; right; exact ih h
      | dir m ch => simp [analyzeDirItems]; right; exact ih h

/-- Lines rendered below a visible directory are lines of the parent
listing's walk. -/
theorem mem_analyzeDirItems_of_child (maxDepth : Nat) {entries : List FSEntry}
    {n : String} {children : List FSEntry}
    (he : FSEntry.dir n children ∈ entries) (hx : excluded n = false)
    {currentDepth : Nat} {l : RenderedLine}
    (hl : l ∈ analyzeDirLines maxDepth children (currentDepth + 1)) :
    l ∈ analyzeDirItems maxDepth entries currentDepth := by
  induction entries with
  | nil => simp at he
  | cons a rest ih =>
    rcases List.mem_cons.mp he with h | h
    · subst h
      simp only [analyzeDirItems, List.mem_append, hx, if_false]
      left
      right
      rw [analyzeDirLines] at hl
      exact hl
    · cases a with
      | file m => simp [analyzeDirItems]; right; exact ih h
      | dir m ch => simp [analyzeDirItems]; right; exact ih h

/-- A visible entry `k` levels down is rendered at depth
`currentDepth + k` whenever that depth is below the bound. -/
theorem visible_rendered (maxDepth : Nat) {entries : List FSEntry} {k : Nat}
    {e : FSEntry} (hv : VisibleAt entries k e) :
    ∀ currentDepth, currentDepth + k < maxDepth →
      (currentDepth + k, e.isDirB, e.name) ∈ analyzeDirItems maxDepth entries currentDepth := by
  induction hv with
  | here hmem hx =>
    intro d hd
    simpa using mem_analyzeDirItems_of_mem maxDepth hmem hx d
  | @deeper entries' n' children' k' e' hmem hx _ ih =>
    intro d hd
    have h1 : (d + 1) + k' < maxDepth := by omega
    have h2 := ih (d + 1) h1
    have h2' : ((d + 1) + k', e'.isDirB, e'.name) ∈
        analyzeDirLines maxDepth children' (d + 1) := by
      rw [analyzeDirLines, if_neg (by omega)]
      exact h2
    have h4 := mem_analyzeDirItems_of_child maxDepth hmem hx h2'
    have heq : d + (k' + 1) = (d + 1) + k' := by omega
    rw [heq]
    exact h4

/-- Folding string concatenation from `s` prepends `s` to the join. -/
theorem strFoldl_append (xs : List String) :
    ∀ s : String, xs.foldl (· ++ ·) s = s ++ String.join xs := by
  induction xs with
  | nil => intro s; simp [String.join, String.append_empty]
  | cons x xs ih =>
    intro s
    show xs.foldl (· ++ ·) (s ++ x) = _
    rw [ih (s ++ x)]
    show _ = s ++ xs.foldl (· ++ ·) ("" ++ x)
    rw [ih ("" ++ x), String.empty_append, String.append_assoc]

/-- Join of a cons. -/
theorem strJoin_cons (x : String) (xs : List String) :
    String.join (x :: xs) = x ++ String.join xs := by
  show xs.foldl (· ++ ·) ("" ++ x) = _
  rw [strFoldl_append, String.empty_append]

/-- Join distributes over append. -/
theorem strJoin_append (l1 l2 : List String) :
    String.join (l1 ++ l2) = String.join l1 ++ String.join l2 := by
  induction l1 with
  | nil => simp [String.join, String.empty_append]
  | cons x xs ih => rw [List.cons_append, strJoin_cons, strJoin_cons, ih, String.append_assoc]

/-- The string the source's `analyzeDir` loop builds is exactly the
rendering of the structured line list. -/
theorem analyzeDirStrItems_eq (maxDepth : Nat) (entries : List FSEntry) :
    ∀ currentDepth, analyzeDirStrItems maxDepth entries currentDepth
      = String.join ((analyzeDirItems maxDepth entries currentDepth).map renderLine) := by
  induction entries using fsListInduction with
  | hnil => intro d; simp [analyzeDirStrItems, analyzeDirItems, String.join]
  | hfile n rest ih =>
    intro d
    cases hx : excluded n with
    | true => simp [analyzeDirStrItems, analyzeDirItems, hx, ih d, String.empty_append]
    | false =>
      simp [analyzeDirStrItems, analyzeDirItems, hx, ih d, strJoin_cons, renderLine,
        String.append_assoc]
  | hdir n children rest ihc ih =>
    intro d
    cases hx : excluded n with
    | true => simp [analyzeDirStrItems, analyzeDirItems, hx, ih d, String.empty_append]
    | false =>
      by_cases hd : maxDepth ≤ d + 1
      · simp [analyzeDirStrItems, analyzeDirItems, hx, hd, ih d, strJoin_cons, renderLine,
          String.append_assoc, String.empty_append, String.append_empty]
      · simp [analyzeDirStrItems, analyzeDirItems, hx, hd, ih d, ihc (d + 1), strJoin_cons,
          strJoin_append, renderLine, String.append_assoc]

/-- `analyzeDir` returns the join of the rendered structured lines: the
structured list `analyzeDirLines` is a faithful view of the rendering. -/
theorem analyzeDir_eq_render (maxDepth : Nat) (entries : List FSEntry) (currentDepth : Nat) :
    analyzeDir maxDepth entries currentDepth
      = String.join ((analyzeDirLines maxDepth entries currentDepth).map renderLine) := by
  rw [analyzeDir, analyzeDirLines]
  by_cases hd : maxDepth ≤ currentDepth
  · simp [hd, String.join]
  · simp only [hd, if_false]
    exact analyzeDirStrItems_eq maxDepth entries currentDepth

/-- No rendered line carries an excluded name. -/
theorem analyzeDirItems_not_excluded (maxDepth : Nat) (entries : List FSEntry) :
    ∀ currentDepth l, l ∈ analyzeDirItems maxDepth entries currentDepth →
      excluded l.2.2 = false := by
  induction entries using fsListInduction with
  | hnil => intro d l h; simp [analyzeDirItems] at h
  | hfile n rest ih =>
    intro d l h
    simp only [analyzeDirItems, List.mem_append] at h
    rcases h with h | h
    · cases hx : excluded n with
      | true => simp [hx] at h
      | false => simp [hx] at h; subst h; exact hx
    · exact ih d l h
  | hdir n children rest ihc ih =>
    intro d l h
    simp only [analyzeDirItems, List.mem_append] at h
    rcases h with h | h
    · cases hx : excluded n with
      | true => simp [hx] at h
      | false =>
        simp [hx] at h
        rcases h with h | ⟨_, h⟩
        · subst h; exact hx
        · exact ihc (d + 1) l h
    · exact ih d l h

/-- Pruning the excluded entries (and with them their whole subtrees)
from the tree does not change the rendered lines. -/
theorem analyzeDirItems_prune (maxDepth : Nat) (entries : List FSEntry) :
    ∀ currentDepth, analyzeDirItems maxDepth (pruneEntries entries) currentDepth
      = analyzeDirItems maxDepth entries currentDepth := by
  induction entries using fsListInduction with
  | hnil => intro d; simp [pruneEntries]
  | hfile n rest ih =>
    intro d
    cases hx : excluded n with
    | true => simp [pruneEntries, hx, analyzeDirItems, ih d]
    | false => simp [pruneEntries, hx, analyzeDirItems, ih d]
  | hdir n children rest ihc ih =>
    intro d
    cases hx : excluded n with
    | true => simp [pruneEntries, hx, analyzeDirItems, ih d]
    | false => simp [pruneEntries, hx, analyzeDirItems, ih d, ihc (d + 1)]

/-- C1: with bound `maxDepth = d`, the rendering lists no entry at depth
greater than `d` (indeed none at depth `d` or more — the third conjunct,
which is also what makes a depth-`d-1` directory render with no visible
descendants), and every non-excluded directory reachable at depth exactly
`d - 1` still appears as its own line. Depth `0` is the starting
directory's immediate children. -/
theorem c1_depth_bound (maxDepth : Nat) (entries : List FSEntry)
    (hpos : 0 < maxDepth) :
    (∀ l ∈ analyzeDirLines maxDepth entries 0, l.1 ≤ maxDepth) ∧
    (∀ n children, VisibleAt entries (maxDepth - 1) (FSEntry.dir n children) →
      children ≠ [] →
      (maxDepth - 1, true, n) ∈ analyzeDirLines maxDepth entries 0) ∧
    (∀ l ∈ analyzeDirLines maxDepth entries 0, l.1 < maxDepth) := by
  have hlines : analyzeDirLines maxDepth entries 0 = analyzeDirItems maxDepth entries 0 := by
    rw [analyzeDirLines, if_neg (by omega)]
  have hlt : ∀ l ∈ analyzeDirLines maxDepth entries 0, l.1 < maxDepth := by
    intro l hl
    rw [hlines] at hl
    have := analyzeDirItems_depth maxDepth entries 0 l hl
    omega
  refine ⟨fun l hl => Nat.le_of_lt (hlt l hl), fun n children hv _ => ?_, hlt⟩
  have := visible_rendered maxDepth hv 0 (by omega)
  rw [hlines]
  simpa [FSEntry.isDirB, FSEntry.name] using this

/-- Witness for C1 on the tree `[a/ [x]]` with `maxDepth = 1`: the
directory `a` at depth `0 = maxDepth - 1` appears as a line, at depth
within the bound, and its child `x` is not rendered. -/
theorem c1_depth_bound_witness :
    (0, true, "a") ∈ analyzeDirLines 1 [FSEntry.dir "a" [FSEntry.file "x"]] 0 ∧
    (0 : Nat) ≤ 1 ∧
    analyzeDirLines 1 [FSEntry.dir "a" [FSEntry.file "x"]] 0 = [(0, true, "a")] := by
  have h := c1_depth_bound 1 [FSEntry.dir "a" [FSEntry.file "x"]] (by decide)
  have hv : VisibleAt [FSEntry.dir "a" [FSEntry.file "x"]] 0
      (FSEntry.dir "a" [FSEntry.file "x"]) :=
    VisibleAt.here (by simp) (by decide)
  have hm := h.2.1 "a" [FSEntry.file "x"] hv (by simp)
  have hxa : excluded "a" = false := by decide
  have hxx : excluded "x" = false := by decide
  exact ⟨hm, h.1 (0, true, "a") hm,
    by simp [analyzeDirLines, analyzeDirItems, hxa, hxx]⟩

/-- C2: no rendered line carries a name that starts with `.` or equals
`node_modules`, and the rendering (both the structured lines and the
final string) of any tree equals the rendering of the tree with every
excluded entry, together with its whole subtree, removed — so excluded
entries are neither listed nor recursed into, and none of their
descendants appear. -/
theorem c2_exclusion (maxDepth : Nat) (entries : List FSEntry) :
    (∀ l ∈ analyzeDirLines maxDepth entries 0, excluded l.2.2 = false) ∧
    analyzeDirLines maxDepth entries 0 = analyzeDirLines maxDepth (pruneEntries entries) 0 ∧
    analyzeDir maxDepth entries 0 = analyzeDir maxDepth (pruneEntries entries) 0 := by
  have hlines : analyzeDirLines maxDepth entries 0
      = analyzeDirLines maxDepth (pruneEntries entries) 0 := by
    rw [analyzeDirLines, analyzeDirLines]
    by_cases hd : maxDepth ≤ 0
    · simp [hd]
    · simp only [hd, if_false]
      exact (analyzeDirItems_prune maxDepth entries 0).symm
  refine ⟨?_, hlines, ?_⟩
  · intro l hl
    rw [analyzeDirLines] at hl
    by_cases hd : maxDepth ≤ 0
    · simp [hd] at hl
    · rw [if_neg hd] at hl
      exact analyzeDirItems_not_excluded maxDepth entries 0 l hl
  · rw [analyzeDir_eq_render, analyzeDir_eq_render, hlines]

/-- Witness for C2 on a tree containing `node_modules/ [y]` and
`.hidden`: the rendered line names are not excluded, and the tree renders
identically to its pruned form. -/
theorem c2_exclusion_witness :
    excluded "a" = false ∧
    analyzeDirLines 3 [FSEntry.dir "node_modules" [FSEntry.file "y"],
      FSEntry.file ".hidden", FSEntry.file "a"] 0
      = analyzeDirLines 3 (pruneEntries [FSEntry.dir "node_modules" [FSEntry.file "y"],
          FSEntry.file ".hidden", FSEntry.file "a"]) 0 := by
  have h := c2_exclusion 3 [FSEntry.dir "node_modules" [FSEntry.file "y"],
    FSEntry.file ".hidden", FSEntry.file "a"]
  refine ⟨?_, h.2.1⟩
  have hxnm : excluded "node_modules" = true := by decide
  have hxh : excluded ".hidden" = true := by decide
  have hxa : excluded "a" = false := by decide
  have := h.1 (0, false, "a")
    (by simp [analyzeDirLines, analyzeDirItems, hxnm, hxh, hxa])
  simpa using this

/-! ## Glob matching model and `find_test_files`
(src/index.ts lines 243–281) -/

/-- Loop trying a `*` against every split point of the segment: succeed
when the rest of the pattern (`f`) matches some suffix. -/
def starLoop (f : List Char → Bool) : List Char → Bool
  | [] => f []
  | c :: cs => f (c :: cs) || starLoop f cs

/-- Single-segment glob matching: `*` matches any character sequence
within the segment, every other pattern character matches literally. -/
def segMatchCore : List Char → List Char → Bool
  | [], s => s.isEmpty
  | c :: ps, s =>
    if c = '*' then starLoop (fun t => segMatchCore ps t) s
    else
      match s with
      | [] => false
      | d :: cs => c == d && segMatchCore ps cs

/-- Segment matching with the glob library's dot rule: a name starting
with `.` is matched only by a pattern that itself starts with `.`. -/
def segMatch (p s : String) : Bool :=
  if jsStartsWith s "." && !jsStartsWith p "." then false
  else segMatchCore p.data s.data

/-- Loop trying a `**` against every number of skipped (non-hidden)
path segments: succeed when the rest of the pattern (`f`) matches some
suffix of the path. -/
def ddLoop (f : List String → Bool) : List String → Bool
  | [] => f []
  | s :: rest => f (s :: rest) || (!jsStartsWith s "." && ddLoop f rest)

/-- Path-level glob matching over slash-separated segments: `**` matches
any number of non-hidden directory segments, other segments match one
path segment each. -/
def globSegs : List String → List String → Bool
  | [], segs => segs.isEmpty
  | p :: ps, segs =>
    if p == "**" then ddLoop (fun t => globSegs ps t) segs
    else
      match segs with
      | [] => false
      | s :: rest => segMatch p s && globSegs ps rest

/-- Model of the glob library call: does `pattern` match `path`? -/
def globMatch (pattern path : String) : Bool :=
  globSegs (jsSplit pattern '/') (jsSplit path '/')

/-- The `type` enum of `find_test_files`. -/
inductive TestType where
  | unit
  | integration
  | e2e
  | all
deriving DecidableEq, Repr

/-- The fixed glob pattern sets selected by `type`
(source lines 248–261). -/
def testPatterns : TestType → List String
  | .unit => ["**/*.test.ts", "**/*.test.tsx", "**/*.spec.ts", "**/*.spec.tsx"]
  | .integration => ["**/*.integration.test.ts", "**/*.integration.test.tsx"]
  | .e2e => ["**/*.e2e.test.ts", "**/*.e2e.test.tsx", "**/e2e/**/*.ts"]
  | .all => ["**/*.test.*", "**/*.spec.*", "**/e2e/**/*"]

/-- Model of `glob(pattern, { cwd: projectRoot })` over the project's
file list `fs`: the matching files in filesystem order. -/
def globFiles (fs : List String) (pattern : String) : List String :=
  fs.filter fun p => globMatch pattern p

/-- The `allFiles` accumulation loop over the selected patterns
(source lines 263–267). -/
def findTestFilesRaw (fs : List String) (t : TestType) : List String :=
  (testPatterns t).foldl (fun acc pattern => acc ++ globFiles fs pattern) []

/-- One insertion into a JavaScript `Set` (which preserves insertion
order and keeps the first occurrence). -/
def addUnique (acc : List String) (x : String) : List String :=
  if x ∈ acc then acc else acc ++ [x]

/-- Model of `Array.from(new Set(allFiles))`: first-occurrence
deduplication. -/
def dedupFirst (l : List String) : List String :=
  l.foldl addUnique []

/-- The `find_test_files` result list (source line 270). -/
def findTestFiles (fs : List String) (t : TestType) : List String :=
  dedupFirst (findTestFilesRaw fs t)

/-- Membership across the `Set` insertion fold. -/
theorem mem_foldl_addUnique (x : String) :
    ∀ (l acc : List String), x ∈ l.foldl addUnique acc ↔ x ∈ acc ∨ x ∈ l := by
  intro l
  induction l with
  | nil => intro acc; simp
  | cons a l ih =>
    intro acc
    show x ∈ l.foldl addUnique (addUnique acc a) ↔ _
    rw [ih (addUnique acc a)]
    unfold addUnique
    by_cases ha : a ∈ acc
    · simp only [ha, if_true, List.mem_cons]
      constructor
      · rintro (h | h)
        · exact Or.inl h
        · exact Or.inr (Or.inr h)
      · rintro (h | h | h)
        · exact Or.inl h
        · subst h; exact Or.inl ha
        · exact Or.inr h
    · simp only [ha, if_false, List.mem_append, List.mem_singleton, List.mem_cons]
      tauto

/-- The `Set` insertion fold keeps the list duplicate-free. -/
theorem nodup_foldl_addUnique :
    ∀ (l acc : List String), acc.Nodup → (l.foldl addUnique acc).Nodup := by
  intro l
  induction l with
  | nil => intro acc h; simpa using h
  | cons a l ih =>
    intro acc h
    show (l.foldl addUnique (addUnique acc a)).Nodup
    refine ih _ ?_
    unfold addUnique
    by_cases ha : a ∈ acc
    · simpa [ha] using h
    · simp [ha, List.nodup_append, h]

/-- The fold only appends elements that were not already present. -/
theorem foldl_addUnique_extend :
    ∀ (l acc : List String), ∃ l', l.foldl addUnique acc = acc ++ l' ∧ ∀ x ∈ l', x ∉ acc := by
  intro l
  induction l with
  | nil => intro acc; exact ⟨[], by simp, by simp⟩
  | cons a l ih =>
    intro acc
    show ∃ l', l.foldl addUnique (addUnique acc a) = acc ++ l' ∧ _
    by_cases ha : a ∈ acc
    · have hstep : addUnique acc a = acc := by simp [addUnique, ha]
      rw [hstep]
      exact ih acc
    · have hstep : addUnique acc a = acc ++ [a] := by simp [addUnique, ha]
      rw [hstep]
      obtain ⟨l'', heq, hnew⟩ := ih (acc ++ [a])
      refine ⟨a :: l'', ?_, ?_⟩
      · rw [heq]; simp
      · intro x hx
        rcases List.mem_cons.mp hx with h | h
        · subst h; exact ha
        · intro hxa
          exact hnew x h (by simp [hxa])

/-- Membership in the pattern accumulation loop. -/
theorem mem_foldl_globFiles (fs : List String) (x : String) :
    ∀ (pats : List String) (acc : List String),
      x ∈ pats.foldl (fun acc pattern => acc ++ globFiles fs pattern) acc ↔
        x ∈ acc ∨ ∃ p ∈ pats, x ∈ globFiles fs p := by
  intro pats
  induction pats with
  | nil => intro acc; simp
  | cons q pats ih =>
    intro acc
    show x ∈ pats.foldl _ (acc ++ globFiles fs q) ↔ _
    rw [ih (acc ++ globFiles fs q)]
    simp only [List.mem_append, List.mem_cons]
    constructor
    · rintro ((h | h) | ⟨p, hp, hx⟩)
      · exact Or.inl h
      · exact Or.inr ⟨q, Or.inl rfl, h⟩
      · exact Or.inr ⟨p, Or.inr hp, hx⟩
    · rintro (h | ⟨p, (hp | hp), hx⟩)
      · exact Or.inl (Or.inl h)
      · subst hp; exact Or.inl (Or.inr hx)
      · exact Or.inr ⟨p, hp, hx⟩

/-- Membership in the raw (pre-dedup) result. -/
theorem mem_findTestFilesRaw (fs : List String) (t : TestType) (x : String) :
    x ∈ findTestFilesRaw fs t ↔ ∃ p ∈ testPatterns t, x ∈ globFiles fs p := by
  rw [findTestFilesRaw, mem_foldl_globFiles]
  simp

/-- Disjunction view of boolean or. -/
theorem orTrue_iff {a b : Bool} : (a || b) = true ↔ a = true ∨ b = true := by
  cases a <;> cases b <;> simp

/-- Unfolding equation: leading `*` on the empty segment. -/
theorem segMatchCore_star_nil (ps : List Char) :
    segMatchCore ('*' :: ps) [] = segMatchCore ps [] := by
  simp [segMatchCore, starLoop]

/-- Unfolding equation: leading `*` on a nonempty segment. -/
theorem segMatchCore_star_cons (ps : List Char) (c : Char) (cs : List Char) :
    segMatchCore ('*' :: ps) (c :: cs)
      = (segMatchCore ps (c :: cs) || segMatchCore ('*' :: ps) cs) := by
  simp [segMatchCore, starLoop]

/-- A leading `*` matches exactly when some split of the segment lets
the rest of the pattern match the remaining characters. -/
theorem segMatchCore_star (ps : List Char) :
    ∀ s, segMatchCore ('*' :: ps) s = true ↔
      ∃ s1 s2, s = s1 ++ s2 ∧ segMatchCore ps s2 = true := by
  intro s
  induction s with
  | nil =>
    rw [segMatchCore_star_nil]
    constructor
    · intro h
      exact ⟨[], [], rfl, h⟩
    · rintro ⟨s1, s2, heq, h2⟩
      obtain ⟨rfl, rfl⟩ := List.append_eq_nil.mp heq.symm
      exact h2
  | cons c cs ih =>
    rw [segMatchCore_star_cons, orTrue_iff]
    constructor
    · intro h
      rcases h with h1 | h1
      · exact ⟨[], c :: cs, rfl, h1⟩
      · obtain ⟨s1, s2, heq, h2⟩ := ih.mp h1
        exact ⟨c :: s1, s2, by rw [heq]; rfl, h2⟩
    · rintro ⟨s1, s2, heq, h2⟩
      cases s1 with
      | nil =>
        simp only [List.nil_append] at heq
        subst heq
        exact Or.inl h2
      | cons d s1 =>
        injection heq with h4 h5
        subst h4
        exact Or.inr (ih.mpr ⟨s1, s2, h5, h2⟩)

/-- A star-free pattern prefix matches itself literally. -/
theorem segMatchCore_lit :
    ∀ (l : List Char), (∀ c ∈ l, c ≠ '*') → ∀ (ps : List Char) (s : List Char),
      segMatchCore (l ++ ps) s = true ↔ ∃ s', s = l ++ s' ∧ segMatchCore ps s' = true := by
  intro l
  induction l with
  | nil => intro _ ps s; simp
  | cons c l ih =>
    intro hl ps s
    have hc : c ≠ '*' := hl c (List.mem_cons_self c l)
    have hl' : ∀ a ∈ l, a ≠ '*' := fun a ha => hl a (List.mem_cons_of_mem c ha)
    cases s with
    | nil =>
      simp only [List.cons_append, segMatchCore, if_neg hc]
      simp
    | cons d cs =>
      simp only [List.cons_append, segMatchCore, if_neg hc]
      constructor
      · intro h
        rw [Bool.and_eq_true, beq_iff_eq] at h
        obtain ⟨rfl, h2⟩ := h
        obtain ⟨s', rfl, h3⟩ := (ih hl' ps cs).mp h2
        exact ⟨s', rfl, h3⟩
      · rintro ⟨s', heq, h3⟩
        injection heq with h4 h5
        subst h4
        subst h5
        rw [Bool.and_eq_true, beq_iff_eq]
        exact ⟨rfl, (ih hl' ps _).mpr ⟨s', rfl, h3⟩⟩

/-- The pattern `*` alone matches every segment. -/
theorem segMatchCore_starAll : ∀ s, segMatchCore ['*'] s = true := by
  intro s
  induction s with
  | nil => simp [segMatchCore, starLoop]
  | cons c cs ih =>
    rw [segMatchCore_star_cons, orTrue_iff]
    exact Or.inr ih

/-- Weakening a `*LIT` segment pattern to `*LIT'*` when `LIT'` occurs
inside `LIT`. -/
theorem core_starLit_to_starLitStar (A B C D : List Char)
    (hA : A = C ++ B ++ D) (hfree : ∀ c ∈ A, c ≠ '*') :
    ∀ s, segMatchCore ('*' :: A) s = true → segMatchCore ('*' :: (B ++ ['*'])) s = true := by
  intro s h
  rw [segMatchCore_star] at h
  obtain ⟨s1, s2, rfl, h2⟩ := h
  have hA' : segMatchCore (A ++ []) s2 = true := by simpa using h2
  obtain ⟨s', heq, h3⟩ := (segMatchCore_lit A hfree [] s2).mp hA'
  have hs' : s' = [] := by
    simp only [segMatchCore, List.isEmpty_iff] at h3
    exact h3
  subst hs'
  rw [List.append_nil] at heq
  subst heq
  rw [segMatchCore_star]
  refine ⟨s1 ++ C, B ++ D, ?_, ?_⟩
  · rw [hA]; simp [List.append_assoc]
  · have hBfree : ∀ c ∈ B, c ≠ '*' := fun c hc => hfree c (by rw [hA]; simp [hc])
    rw [segMatchCore_lit B hBfree ['*']]
    exact ⟨D, rfl, segMatchCore_starAll D⟩

/-- Lift a core-level segment implication through the dot rule. -/
theorem segMatch_imp_of_core (p q : String)
    (hp : jsStartsWith p "." = false) (hq : jsStartsWith q "." = false)
    (h : ∀ t : List Char, segMatchCore p.data t = true → segMatchCore q.data t = true) :
    ∀ s, segMatch p s = true → segMatch q s = true := by
  intro s hs
  simp only [segMatch, hp, hq, Bool.not_false, Bool.and_true] at hs ⊢
  simp at hs
  rw [hs.1]
  simp only [Bool.false_eq_true, if_false]
  exact h s.data hs.2

/-- Any segment pattern with no leading dot is weaker than `*`. -/
theorem segMatch_to_star (p : String) (hp : jsStartsWith p "." = false) :
    ∀ s, segMatch p s = true → segMatch "*" s = true := by
  refine segMatch_imp_of_core p "*" hp (by decide) ?_
  intro t _
  have hstar : "*".data = ['*'] := by decide
  rw [hstar]
  exact segMatchCore_starAll t

/-- Unfolding equation: a `**` pattern head against an empty path. -/
theorem globSegs_dd_nil (ps : List String) :
    globSegs ("**" :: ps) [] = globSegs ps [] := by
  simp [globSegs, ddLoop]

/-- Unfolding equation: a `**` pattern head against a nonempty path. -/
theorem globSegs_dd_cons (ps : List String) (s : String) (rest : List String) :
    globSegs ("**" :: ps) (s :: rest)
      = (globSegs ps (s :: rest) || (!jsStartsWith s "." && globSegs ("**" :: ps) rest)) := by
  simp [globSegs, ddLoop]

/-- Unfolding equation: an ordinary pattern head against an empty path. -/
theorem globSegs_seg_nil (p : String) (ps : List String) (hp : (p == "**") = false) :
    globSegs (p :: ps) [] = false := by
  simp [globSegs, hp]

/-- Unfolding equation: an ordinary pattern head against a nonempty path. -/
theorem globSegs_seg_cons (p : String) (ps : List String) (s : String)
    (rest : List String) (hp : (p == "**") = false) :
    globSegs (p :: ps) (s :: rest) = (segMatch p s && globSegs ps rest) := by
  simp [globSegs, hp]

/-- Replacing the (non-`**`) final segment pattern of a glob by a weaker
one preserves every match. -/
theorem globSegs_mono_last (p q : String) (hp : (p == "**") = false)
    (hq : (q == "**") = false)
    (h : ∀ s, segMatch p s = true → segMatch q s = true) :
    ∀ (pats : List String) (segs : List String),
      globSegs (pats ++ [p]) segs = true → globSegs (pats ++ [q]) segs = true := by
  intro pats
  induction pats with
  | nil =>
    intro segs hm
    cases segs with
    | nil => rw [List.nil_append, globSegs_seg_nil p [] hp] at hm; simp at hm
    | cons s rest =>
      rw [List.nil_append, globSegs_seg_cons p [] s rest hp, Bool.and_eq_true] at hm
      rw [List.nil_append, globSegs_seg_cons q [] s rest hq, Bool.and_eq_true]
      exact ⟨h s hm.1, hm.2⟩
  | cons a pats ih =>
    by_cases ha : (a == "**") = true
    · have ha' : a = "**" := by rwa [beq_iff_eq] at ha
      subst ha'
      intro segs
      induction segs with
      | nil =>
        intro hm
        rw [List.cons_append, globSegs_dd_nil] at hm
        rw [List.cons_append, globSegs_dd_nil]
        exact ih [] hm
      | cons s rest ihs =>
        intro hm
        rw [List.cons_append, globSegs_dd_cons, orTrue_iff] at hm
        rw [List.cons_append, globSegs_dd_cons, orTrue_iff]
        rcases hm with h1 | h1
        · exact Or.inl (ih (s :: rest) h1)
        · rw [Bool.and_eq_true] at h1
          refine Or.inr ?_
          rw [Bool.and_eq_true]
          refine ⟨h1.1, ?_⟩
          have h2 := ihs (by rw [List.cons_append]; exact h1.2)
          rw [List.cons_append] at h2
          exact h2
    · intro segs hm
      have ha' : (a == "**") = false := by simpa using ha
      cases segs with
      | nil =>
        rw [List.cons_append, globSegs_seg_nil a _ ha'] at hm
        simp at hm
      | cons s rest =>
        rw [List.cons_append, globSegs_seg_cons a _ s rest ha', Bool.and_eq_true] at hm
        rw [List.cons_append, globSegs_seg_cons a _ s rest ha', Bool.and_eq_true]
        exact ⟨hm.1, ih rest hm.2⟩

/-- Segment-pattern weakening `*A ⟹ *B*` whenever `A = C ++ B ++ D`. -/
theorem segMatch_sub (p q A B C D : String)
    (hp : p.data = '*' :: A.data) (hq : q.data = '*' :: (B.data ++ ['*']))
    (hps : jsStartsWith p "." = false) (hqs : jsStartsWith q "." = false)
    (hA : A.data = C.data ++ B.data ++ D.data)
    (hfree : ∀ c ∈ A.data, c ≠ '*') :
    ∀ s, segMatch p s = true → segMatch q s = true := by
  refine segMatch_imp_of_core p q hps hqs ?_
  intro t ht
  rw [hp] at ht
  rw [hq]
  exact core_starLit_to_starLitStar A.data B.data C.data D.data hA hfree t ht

/-- Whole-pattern weakening: same directory-pattern prefix, weaker final
segment. -/
theorem globMatch_imp (P Q : String) (pats : List String) (p q : String)
    (hP : jsSplit P '/' = pats ++ [p]) (hQ : jsSplit Q '/' = pats ++ [q])
    (hp : (p == "**") = false) (hq : (q == "**") = false)
    (h : ∀ s, segMatch p s = true → segMatch q s = true) :
    ∀ path, globMatch P path = true → globMatch Q path = true := by
  intro path hm
  rw [globMatch, hP] at hm
  rw [globMatch, hQ]
  exact globSegs_mono_last p q hp hq h pats _ hm

/-- `**/*.test.ts` is subsumed by `**/*.test.*`. -/
theorem globMatch_test_ts (x : String) :
    globMatch "**/*.test.ts" x = true → globMatch "**/*.test.*" x = true :=
  globMatch_imp _ _ ["**"] "*.test.ts" "*.test.*" (by decide) (by decide) (by decide)
    (by decide)
    (segMatch_sub "*.test.ts" "*.test.*" ".test.ts" ".test." "" "ts" (by decide) (by decide)
      (by decide) (by decide) (by decide) (by decide)) x

/-- `**/*.test.tsx` is subsumed by `**/*.test.*`. -/
theorem globMatch_test_tsx (x : String) :
    globMatch "**/*.test.tsx" x = true → globMatch "**/*.test.*" x = true :=
  globMatch_imp _ _ ["**"] "*.test.tsx" "*.test.*" (by decide) (by decide) (by decide)
    (by decide)
    (segMatch_sub "*.test.tsx" "*.test.*" ".test.tsx" ".test." "" "tsx" (by decide)
      (by decide) (by decide) (by decide) (by decide) (by decide)) x

/-- `**/*.spec.ts` is subsumed by `**/*.spec.*`. -/
theorem globMatch_spec_ts (x : String) :
    globMatch "**/*.spec.ts" x = true → globMatch "**/*.spec.*" x = true :=
  globMatch_imp _ _ ["**"] "*.spec.ts" "*.spec.*" (by decide) (by decide) (by decide)
    (by decide)
    (segMatch_sub "*.spec.ts" "*.spec.*" ".spec.ts" ".spec." "" "ts" (by decide) (by decide)
      (by decide) (by decide) (by decide) (by decide)) x

/-- `**/*.spec.tsx` is subsumed by `**/*.spec.*`. -/
theorem globMatch_spec_tsx (x : String) :
    globMatch "**/*.spec.tsx" x = true → globMatch "**/*.spec.*" x = true :=
  globMatch_imp _ _ ["**"] "*.spec.tsx" "*.spec.*" (by decide) (by decide) (by decide)
    (by decide)
    (segMatch_sub "*.spec.tsx" "*.spec.*" ".spec.tsx" ".spec." "" "tsx" (by decide)
      (by decide) (by decide) (by decide) (by decide) (by decide)) x

/-- `**/*.integration.test.ts` is subsumed by `**/*.test.*`. -/
theorem globMatch_integration_ts (x : String) :
    globMatch "**/*.integration.test.ts" x = true → globMatch "**/*.test.*" x = true :=
  globMatch_imp _ _ ["**"] "*.integration.test.ts" "*.test.*" (by decide) (by decide)
    (by decide) (by decide)
    (segMatch_sub "*.integration.test.ts" "*.test.*" ".integration.test.ts" ".test."
      ".integration" "ts" (by decide) (by decide) (by decide) (by decide) (by decide)
      (by decide)) x

/-- `**/*.integration.test.tsx` is subsumed by `**/*.test.*`. -/
theorem globMatch_integration_tsx (x : String) :
    globMatch "**/*.integration.test.tsx" x = true → globMatch "**/*.test.*" x = true :=
  globMatch_imp _ _ ["**"] "*.integration.test.tsx" "*.test.*" (by decide) (by decide)
    (by decide) (by decide)
    (segMatch_sub "*.integration.test.tsx" "*.test.*" ".integration.test.tsx" ".test."
      ".integration" "tsx" (by decide) (by decide) (by decide) (by decide) (by decide)
      (by decide)) x

/-- `**/*.e2e.test.ts` is subsumed by `**/*.test.*`. -/
theorem globMatch_e2e_ts (x : String) :
    globMatch "**/*.e2e.test.ts" x = true → globMatch "**/*.test.*" x = true :=
  globMatch_imp _ _ ["**"] "*.e2e.test.ts" "*.test.*" (by decide) (by decide) (by decide)
    (by decide)
    (segMatch_sub "*.e2e.test.ts" "*.test.*" ".e2e.test.ts" ".test." ".e2e" "ts"
      (by decide) (by decide) (by decide) (by decide) (by decide) (by decide)) x

/-- `**/*.e2e.test.tsx` is subsumed by `**/*.test.*`. -/
theorem globMatch_e2e_tsx (x : String) :
    globMatch "**/*.e2e.test.tsx" x = true → globMatch "**/*.test.*" x = true :=
  globMatch_imp _ _ ["**"] "*.e2e.test.tsx" "*.test.*" (by decide) (by decide) (by decide)
    (by decide)
    (segMatch_sub "*.e2e.test.tsx" "*.test.*" ".e2e.test.tsx" ".test." ".e2e" "tsx"
      (by decide) (by decide) (by decide) (by decide) (by decide) (by decide)) x

/-- `**/e2e/**/*.ts` is subsumed by `**/e2e/**/*`. -/
theorem globMatch_e2e_dir (x : String) :
    globMatch "**/e2e/**/*.ts" x = true → globMatch "**/e2e/**/*" x = true :=
  globMatch_imp _ _ ["**", "e2e", "**"] "*.ts" "*" (by decide) (by decide) (by decide)
    (by decide) (segMatch_to_star "*.ts" (by decide)) x

/-- C5: on any project tree, `find_test_files` with `type="all"` returns
a superset of the union of the results for `unit`, `integration` and
`e2e`; within each call the results collected across the patterns are
deduplicated by exact path equality — same membership as the raw
concatenation, no duplicates — keeping first occurrences in order: the
dedup of any raw prefix is a prefix of the dedup of the whole, and the
elements after it are exactly paths not occurring in that prefix. -/
theorem c5_find_test_files (fs : List String) :
    (∀ x, x ∈ findTestFiles fs TestType.unit ∨ x ∈ findTestFiles fs TestType.integration ∨
        x ∈ findTestFiles fs TestType.e2e → x ∈ findTestFiles fs TestType.all) ∧
    (∀ t, (findTestFiles fs t).Nodup) ∧
    (∀ t x, x ∈ findTestFiles fs t ↔ x ∈ findTestFilesRaw fs t) ∧
    (∀ l1 l2 : List String, ∃ l', dedupFirst (l1 ++ l2) = dedupFirst l1 ++ l' ∧
        ∀ x ∈ l', x ∉ l1) := by
  have hmem : ∀ t x, x ∈ findTestFiles fs t ↔ x ∈ findTestFilesRaw fs t := by
    intro t x
    rw [findTestFiles, dedupFirst, mem_foldl_addUnique]
    simp
  refine ⟨?_, ?_, hmem, ?_⟩
  · intro x h
    rw [hmem, mem_findTestFilesRaw]
    have grab : ∀ t, x ∈ findTestFiles fs t →
        ∃ p ∈ testPatterns t, x ∈ fs ∧ globMatch p x = true := by
      intro t ht
      obtain ⟨p, hp, hxp⟩ := (mem_findTestFilesRaw fs t x).mp ((hmem t x).mp ht)
      exact ⟨p, hp, (List.mem_filter.mp hxp).1, (List.mem_filter.mp hxp).2⟩
    have put : ∀ q ∈ testPatterns TestType.all, x ∈ fs → globMatch q x = true →
        ∃ p ∈ testPatterns TestType.all, x ∈ globFiles fs p := by
      intro q hq hxfs hm
      exact ⟨q, hq, List.mem_filter.mpr ⟨hxfs, hm⟩⟩
    rcases h with h | h | h
    · obtain ⟨p, hp, hxfs, hm⟩ := grab _ h
      simp only [testPatterns, List.mem_cons, List.not_mem_nil, or_false] at hp
      rcases hp with rfl | rfl | rfl | rfl
      · exact put "**/*.test.*" (by simp [testPatterns]) hxfs (globMatch_test_ts x hm)
      · exact put "**/*.test.*" (by simp [testPatterns]) hxfs (globMatch_test_tsx x hm)
      · exact put "**/*.spec.*" (by simp [testPatterns]) hxfs (globMatch_spec_ts x hm)
      · exact put "**/*.spec.*" (by simp [testPatterns]) hxfs (globMatch_spec_tsx x hm)
    · obtain ⟨p, hp, hxfs, hm⟩ := grab _ h
      simp only [testPatterns, List.mem_cons, List.not_mem_nil, or_false] at hp
      rcases hp with rfl | rfl
      · exact put "**/*.test.*" (by simp [testPatterns]) hxfs (globMatch_integration_ts x hm)
      · exact put "**/*.test.*" (by simp [testPatterns]) hxfs (globMatch_integration_tsx x hm)
    · obtain ⟨p, hp, hxfs, hm⟩ := grab _ h
      simp only [testPatterns, List.mem_cons, List.not_mem_nil, or_false] at hp
      rcases hp with rfl | rfl | rfl
      · exact put "**/*.test.*" (by simp [testPatterns]) hxfs (globMatch_e2e_ts x hm)
      · exact put "**/*.test.*" (by simp [testPatterns]) hxfs (globMatch_e2e_tsx x hm)
      · exact put "**/e2e/**/*" (by simp [testPatterns]) hxfs (globMatch_e2e_dir x hm)
  · intro t
    exact nodup_foldl_addUnique _ [] List.nodup_nil
  · intro l1 l2
    rw [dedupFirst, List.foldl_append]
    obtain ⟨l', heq, hnew⟩ := foldl_addUnique_extend l2 (l1.foldl addUnique [])
    refine ⟨l', heq, fun x hx hxl1 => ?_⟩
    exact hnew x hx ((mem_foldl_addUnique x l1 []).mpr (Or.inr hxl1))

/-- Witness for C5 on the tree `["a.test.ts", "sub/b.spec.tsx", "a.test.ts"]`:
the `unit` result contains `a.test.ts`, so the `all` result does too, the
results are duplicate-free, and the dedup splits off the repeated path. -/
theorem c5_find_test_files_witness :
    "a.test.ts" ∈ findTestFiles ["a.test.ts", "sub/b.spec.tsx", "a.test.ts"] TestType.all ∧
    (findTestFiles ["a.test.ts", "sub/b.spec.tsx", "a.test.ts"] TestType.unit).Nodup := by
  have h := c5_find_test_files ["a.test.ts", "sub/b.spec.tsx", "a.test.ts"]
  refine ⟨h.1 "a.test.ts" (Or.inl ?_), h.2.1 TestType.unit⟩
  rw [h.2.2.1 TestType.unit "a.test.ts", mem_findTestFilesRaw]
  refine ⟨"**/*.test.ts", by simp [testPatterns], ?_⟩
  rw [globFiles, List.mem_filter]
  exact ⟨by simp, by decide⟩

/-! ## `get_graphql_schemas` (src/index.ts lines 135–177) -/

/-- Model of JavaScript `array.join(sep)`. -/
def jsJoin (sep : String) : List String → String
  | [] => ""
  | [x] => x
  | x :: y :: xs => x ++ sep ++ jsJoin sep (y :: xs)

/-- `a` occurs inside `b` as a contiguous substring. -/
def occursIn (a b : String) : Prop :=
  ∃ pre post, b.data = pre ++ a.data ++ post

/-- Every string occurs in itself. -/
theorem occursIn_refl (a : String) : occursIn a a :=
  ⟨[], [], by simp⟩

/-- Occurrence survives extending on the right. -/
theorem occursIn_left {a x : String} (y : String) (h : occursIn a x) :
    occursIn a (x ++ y) := by
  obtain ⟨pre, post, hx⟩ := h
  exact ⟨pre, post ++ y.data, by rw [String.data_append, hx]; simp⟩

/-- Occurrence survives extending on the left. -/
theorem occursIn_right {a y : String} (x : String) (h : occursIn a y) :
    occursIn a (x ++ y) := by
  obtain ⟨pre, post, hy⟩ := h
  exact ⟨x.data ++ pre, post, by rw [String.data_append, hy]; simp⟩

/-- Occurrence is transitive. -/
theorem occursIn_trans {a m b : String} (h1 : occursIn a m) (h2 : occursIn m b) :
    occursIn a b := by
  obtain ⟨p1, q1, hm⟩ := h1
  obtain ⟨p2, q2, hb⟩ := h2
  exact ⟨p2 ++ p1, q1 ++ q2, by rw [hb, hm]; simp⟩

/-- A list member occurs in the join. -/
theorem occursIn_jsJoin (sep : String) :
    ∀ (l : List String) (s : String), s ∈ l → occursIn s (jsJoin sep l) := by
  intro l
  induction l with
  | nil => intro s hs; simp at hs
  | cons x xs ih =>
    intro s hs
    rcases List.mem_cons.mp hs with rfl | hs
    · cases xs with
      | nil => exact occursIn_refl s
      | cons y ys =>
        show occursIn s (s ++ sep ++ jsJoin sep (y :: ys))
        exact occursIn_left _ (occursIn_left _ (occursIn_refl s))
    · cases xs with
      | nil => simp at hs
      | cons y ys =>
        show occursIn s (x ++ sep ++ jsJoin sep (y :: ys))
        exact occursIn_right _ (ih s hs)

/-- The glob pattern `get_graphql_schemas` uses (source lines 144–146). -/
def featurePattern : Option String → String
  | some f => "features/" ++ f ++ "/**/*.gql"
  | none => "features/**/*.gql"

/-- The read loop (source lines 149–154): read every matched file,
pairing it with its full content; a failing read aborts to the catch. -/
def readSchemas (readFn : String → Except String String) :
    List String → Except String (List (String × String))
  | [] => .ok []
  | file :: rest =>
    match readFn file with
    | .error e => .error e
    | .ok content =>
      match readSchemas readFn rest with
      | .error e => .error e
      | .ok tail => .ok ((file, content) :: tail)

/-- Rendering of one schema entry (source line 161): content is cut at
500 characters for display only, with a `\n...` marker closing the fence
when it was longer. -/
def formatSchema (file content : String) : String :=
  "## " ++ file ++ "\n```graphql\n" ++ content.take 500 ++
    (if content.length > 500 then "\n...\n```" else "\n```")

/-- The text of a successful call (source lines 160–162); the count and
the entry list come from the untruncated `schemas` pairs. -/
def graphqlSchemasText (schemas : List (String × String)) : String :=
  "Found " ++ toString schemas.length ++ " GraphQL schema files:\n\n" ++
    jsJoin "\n\n" (schemas.map fun fc => formatSchema fc.1 fc.2)

/-- Body of `get_graphql_schemas` (source lines 143–165). -/
def getGraphqlSchemasBody (feature : Option String)
    (globFn : String → Except String (List String))
    (readFn : String → Except String String) : Except String String := do
  let files ← globFn (featurePattern feature)
  let schemas ← readSchemas readFn files
  pure (graphqlSchemasText schemas)

/-- The `get_graphql_schemas` handler (source lines 141–176). -/
def getGraphqlSchemas (feature : Option String)
    (globFn : String → Except String (List String))
    (readFn : String → Except String String) : Envelope :=
  wrapResult "Error getting GraphQL schemas: " (getGraphqlSchemasBody feature globFn readFn)

/-- C6: in the `get_graphql_schemas` output, a matched file whose content
is at most 500 characters long is rendered in full (its entry carries the
whole content, which therefore occurs in the output text); a longer one
is rendered as exactly its first 500 characters followed by the
truncation marker; the raw match list pairs each file with its full
untruncated content, and the reported count is the length of that list. -/
theorem c6_graphql_truncation (schemas : List (String × String)) :
    (∀ fc ∈ schemas, fc.2.length ≤ 500 →
      formatSchema fc.1 fc.2 = "## " ++ fc.1 ++ "\n```graphql\n" ++ fc.2 ++ "\n```" ∧
      occursIn fc.2 (graphqlSchemasText schemas)) ∧
    (∀ fc ∈ schemas, 500 < fc.2.length →
      formatSchema fc.1 fc.2
        = "## " ++ fc.1 ++ "\n```graphql\n" ++ fc.2.take 500 ++ "\n...\n```" ∧
      occursIn (fc.2.take 500 ++ "\n...") (graphqlSchemasText schemas)) ∧
    (∀ (readFn : String → Except String String) (files : List String)
        (schemas' : List (String × String)),
      readSchemas readFn files = Except.ok schemas' →
      ∀ fc ∈ schemas', readFn fc.1 = Except.ok fc.2) ∧
    (∀ feature globFn readFn files,
      globFn (featurePattern feature) = Except.ok files →
      readSchemas readFn files = Except.ok schemas →
      getGraphqlSchemas feature globFn readFn
        = textEnvelope (graphqlSchemasText schemas)) := by
  have hocc : ∀ fc ∈ schemas, occursIn (formatSchema fc.1 fc.2) (graphqlSchemasText schemas) := by
    intro fc hfc
    refine occursIn_right _ ?_
    exact occursIn_jsJoin "\n\n" _ _ (List.mem_map.mpr ⟨fc, hfc, rfl⟩)
  refine ⟨?_, ?_, ?_, ?_⟩
  · intro fc hfc hlen
    have htake : fc.2.take 500 = fc.2 := by
      apply String.ext
      rw [String.data_take]
      exact List.take_of_length_le hlen
    have hfmt : formatSchema fc.1 fc.2
        = "## " ++ fc.1 ++ "\n```graphql\n" ++ fc.2 ++ "\n```" := by
      rw [formatSchema, htake, if_neg (by omega)]
    refine ⟨hfmt, occursIn_trans ?_ (hocc fc hfc)⟩
    rw [hfmt]
    refine ⟨("## " ++ fc.1 ++ "\n```graphql\n").data, "\n```".data, ?_⟩
    simp [String.data_append]
  · intro fc hfc hlen
    have hfmt : formatSchema fc.1 fc.2
        = "## " ++ fc.1 ++ "\n```graphql\n" ++ fc.2.take 500 ++ "\n...\n```" := by
      rw [formatSchema, if_pos (by omega)]
    refine ⟨hfmt, occursIn_trans ?_ (hocc fc hfc)⟩
    rw [hfmt]
    refine ⟨("## " ++ fc.1 ++ "\n```graphql\n").data, "\n```".data, ?_⟩
    have hsplit : ("\n...\n```" : String).data = ("\n..." : String).data ++ ("\n```" : String).data := by
      decide
    simp [String.data_append, hsplit]
  · intro readFn files
    induction files with
    | nil =>
      intro schemas' h fc hfc
      simp [readSchemas] at h
      subst h
      simp at hfc
    | cons f fs ih =>
      intro schemas' h fc hfc
      rw [readSchemas] at h
      cases hr : readFn f with
      | error e => rw [hr] at h; simp at h
      | ok c =>
        rw [hr] at h
        cases hrest : readSchemas readFn fs with
        | error e => rw [hrest] at h; simp at h
        | ok rest =>
          rw [hrest] at h
          simp at h
          subst h
          rcases List.mem_cons.mp hfc with rfl | hfc'
          · exact hr
          · exact ih rest hrest fc hfc'
  · intro feature globFn readFn files hg hr
    rw [getGraphqlSchemas, getGraphqlSchemasBody, hg]
    show wrapResult _ (readSchemas readFn files >>= _) = _
    rw [hr]
    rfl

/-- Witness for C6 on a single short schema file: rendered in full, and
the content occurs in the output verbatim. -/
theorem c6_graphql_truncation_witness :
    formatSchema "a.gql" "type Query" = "## a.gql\n```graphql\ntype Query\n```" ∧
    occursIn "type Query" (graphqlSchemasText [("a.gql", "type Query")]) := by
  have h := (c6_graphql_truncation [("a.gql", "type Query")]).1
    ("a.gql", "type Query") (by simp) (by decide)
  refine ⟨?_, h.2⟩
  rw [h.1]
  decide

/-! ## Decidable substring search (to evaluate `occursIn` on concrete
strings) -/

/-- Decidable search: does `needle` occur in `hay`? -/
def hasSub : List Char → List Char → Bool
  | [], needle => needle.isEmpty
  | c :: t, needle => isPre needle (c :: t) || hasSub t needle

/-- `isPre` detects exactly the prefixes. -/
theorem isPre_iff : ∀ (p s : List Char), isPre p s = true ↔ ∃ t, s = p ++ t := by
  intro p
  induction p with
  | nil => intro s; simp [isPre]
  | cons c cs ih =>
    intro s
    cases s with
    | nil => simp [isPre]
    | cons d ds =>
      rw [show isPre (c :: cs) (d :: ds) = (c == d && isPre cs ds) from rfl,
        Bool.and_eq_true, beq_iff_eq, ih ds]
      constructor
      · rintro ⟨rfl, t, rfl⟩
        exact ⟨t, rfl⟩
      · rintro ⟨t, het⟩
        injection het with h1 h2
        exact ⟨h1.symm, t, h2⟩

/-- `hasSub` detects exactly the contiguous occurrences. -/
theorem hasSub_iff : ∀ (hay needle : List Char),
    hasSub hay needle = true ↔ ∃ pre post, hay = pre ++ needle ++ post := by
  intro hay
  induction hay with
  | nil =>
    intro needle
    simp only [hasSub, List.isEmpty_iff]
    constructor
    · rintro rfl; exact ⟨[], [], rfl⟩
    · rintro ⟨pre, post, h⟩
      rcases List.append_eq_nil.mp h.symm with ⟨h1, h2⟩
      exact (List.append_eq_nil.mp h1).2
  | cons c t ih =>
    intro needle
    rw [show hasSub (c :: t) needle = (isPre needle (c :: t) || hasSub t needle) from rfl,
      orTrue_iff, isPre_iff, ih]
    constructor
    · rintro (⟨post, hp⟩ | ⟨pre, post, hp⟩)
      · exact ⟨[], post, by simpa using hp⟩
      · exact ⟨c :: pre, post, by simp [hp]⟩
    · rintro ⟨pre, post, hp⟩
      cases pre with
      | nil => exact Or.inl ⟨post, by simpa using hp⟩
      | cons x xs =>
        injection hp with h1 h2
        exact Or.inr ⟨xs, post, h2⟩

/-- `occursIn` agrees with the decidable search. -/
theorem occursIn_iff_hasSub (a b : String) :
    occursIn a b ↔ hasSub b.data a.data = true := by
  rw [hasSub_iff]
  exact Iff.rfl

/-! ## `get_git_diff` (src/index.ts lines 347–430) -/

/-- Outcomes of the four git subprocess queries a `get_git_diff` call can
make: current branch name, changed-file list, commit log, diff text. -/
structure GitOracle where
  currentBranch : Except String String
  filesOutput : Except String String
  commits : Except String String
  diff : Except String String

/-- `filesOutput.trim().split('\n').filter(f => f.length > 0)`
(source line 366; the same computation appears at lines 454 and 615). -/
def changedFilesOf (filesOutput : String) : List String :=
  (jsSplit (jsTrim filesOutput) '\n').filter fun f => 0 < f.length

/-- The changed-files section (source lines 372–378): present only when
the changed list is nonempty. -/
def changedFilesSection (changedFiles : List String) : String :=
  if 0 < changedFiles.length then
    "## Changed Files\n\n" ++
      String.join (changedFiles.map fun file => "- `" ++ file ++ "`\n") ++ "\n"
  else ""

/-- The commits section (source lines 381–396): only when requested; a
failed log query is caught locally and adds nothing (`console.warn`). -/
def commitsSection (includeCommits : Bool) (commits : Except String String) : String :=
  if includeCommits then
    match commits with
    | .ok c =>
      let commitMessages := (jsSplit (jsTrim c) '\n').filter fun m => 0 < m.length
      if 0 < commitMessages.length then
        "## Commits\n\n" ++
          String.join (commitMessages.map fun commit => "- " ++ commit ++ "\n") ++ "\n"
      else ""
    | .error _ => ""
  else ""

/-- The diff section (source lines 399–409): only when requested; an
empty diff adds nothing; a failed diff query is caught locally and
appends an inline error note instead of the section. -/
def diffSection (includeDiff : Bool) (diff : Except String String) : String :=
  if includeDiff then
    match diff with
    | .ok d =>
      if jsTrim d = "" then "" else "## Diff\n\n```diff\n" ++ d ++ "\n```\n"
    | .error e => "\n**Error getting diff:** " ++ e ++ "\n"
  else ""

/-- The assembled output text of a successful `get_git_diff` call
(source lines 368–409). -/
def gitDiffText (branch currentBranchName : String) (changedFiles : List String)
    (includeCommits : Bool) (commits : Except String String)
    (includeDiff : Bool) (diff : Except String String) : String :=
  "# Git Diff: " ++ currentBranchName ++ " → " ++ branch ++ "\n\n" ++
    ("**Files Changed:** " ++ toString changedFiles.length ++ "\n\n") ++
    changedFilesSection changedFiles ++
    commitsSection includeCommits commits ++
    diffSection includeDiff diff

/-- Body of `get_git_diff` (source lines 357–418): the branch query and
the changed-file query are awaited bare, so their failures abort to the
handler catch; commits and diff are guarded locally. -/
def getGitDiffBody (branch : String) (includeDiff includeCommits : Bool)
    (g : GitOracle) : Except String String := do
  let currentBranch ← g.currentBranch
  let filesOutput ← g.filesOutput
  pure (gitDiffText branch (jsTrim currentBranch) (changedFilesOf filesOutput)
    includeCommits g.commits includeDiff g.diff)

/-- The `get_git_diff` handler (source lines 355–429). -/
def getGitDiff (branch : String) (includeDiff includeCommits : Bool)
    (g : GitOracle) : Envelope :=
  wrapResult "Error getting git diff: " (getGitDiffBody branch includeDiff includeCommits g)

/-- C4 counterexample: with everything else identical, a failing diff
query does NOT produce the output with only the Diff section omitted
(that output is the one where the diff query returns an empty diff):
the failing run appends an inline `**Error getting diff:**` note, so the
two outputs differ. -/
theorem c4_counterexample :
    getGitDiff "master" true false
        ⟨Except.ok "feature", Except.ok "", Except.ok "", Except.error "boom"⟩ ≠
      getGitDiff "master" true false
        ⟨Except.ok "feature", Except.ok "", Except.ok "", Except.ok ""⟩ := by
  decide

/-- C4 (amended): a commit-log failure degrades gracefully — the call
returns exactly what it returns when the log query yields nothing, i.e.
only the Commits section is omitted; a diff failure also leaves the call
successful and omits the Diff section, but additionally appends an
inline `**Error getting diff:**` note; a failure of the changed-file
query (the branch query having succeeded) is fatal: the result is the
error-description envelope with no diff report. -/
theorem c4_failure_asymmetry (branch : String) (includeDiff includeCommits : Bool)
    (g : GitOracle) :
    (∀ e, g.commits = Except.error e →
      getGitDiff branch includeDiff includeCommits g =
        getGitDiff branch includeDiff includeCommits
          { g with commits := Except.ok "" }) ∧
    (∀ cb fo e, g.currentBranch = Except.ok cb → g.filesOutput = Except.ok fo →
      g.diff = Except.error e →
      getGitDiff branch true includeCommits g = textEnvelope
        ("# Git Diff: " ++ jsTrim cb ++ " → " ++ branch ++ "\n\n" ++
          ("**Files Changed:** " ++ toString (changedFilesOf fo).length ++ "\n\n") ++
          changedFilesSection (changedFilesOf fo) ++
          commitsSection includeCommits g.commits ++
          ("\n**Error getting diff:** " ++ e ++ "\n"))) ∧
    (∀ cb e, g.currentBranch = Except.ok cb → g.filesOutput = Except.error e →
      getGitDiff branch includeDiff includeCommits g =
        textEnvelope ("Error getting git diff: " ++ e)) := by
  obtain ⟨cb0, fo0, cm0, df0⟩ := g
  refine ⟨?_, ?_, ?_⟩
  · rintro e rfl
    have hsec : commitsSection includeCommits (Except.error e)
        = commitsSection includeCommits (Except.ok "") := by
      cases includeCommits with
      | true => simp [commitsSection]; decide
      | false => simp [commitsSection]
    cases cb0 with
    | error e1 => rfl
    | ok cb => cases fo0 with
      | error e2 => rfl
      | ok fo =>
        show textEnvelope (gitDiffText _ _ _ _ _ _ _) = textEnvelope (gitDiffText _ _ _ _ _ _ _)
        rw [gitDiffText, gitDiffText, hsec]
  · rintro cb fo e rfl rfl rfl
    show textEnvelope (gitDiffText _ _ _ _ _ _ _) = _
    rw [gitDiffText, diffSection]
    rfl
  · rintro cb e rfl rfl
    rfl

/-- Witness for C4: the three behaviours at concrete oracles — a failed
log query gives the same output as an empty log; a failed diff query
still succeeds, with the inline note; a failed changed-file query gives
the error envelope. -/
theorem c4_failure_asymmetry_witness :
    (getGitDiff "master" false true
        ⟨Except.ok "f", Except.ok "", Except.error "x", Except.ok ""⟩ =
      getGitDiff "master" false true
        ⟨Except.ok "f", Except.ok "", Except.ok "", Except.ok ""⟩) ∧
    (getGitDiff "master" true false
        ⟨Except.ok "f", Except.ok "", Except.ok "", Except.error "boom"⟩ = textEnvelope
        ("# Git Diff: " ++ jsTrim "f" ++ " → " ++ "master" ++ "\n\n" ++
          ("**Files Changed:** " ++ toString (changedFilesOf "").length ++ "\n\n") ++
          changedFilesSection (changedFilesOf "") ++
          commitsSection false (Except.ok "") ++
          ("\n**Error getting diff:** " ++ "boom" ++ "\n"))) ∧
    (getGitDiff "master" true true
        ⟨Except.ok "f", Except.error "bad ref", Except.ok "", Except.ok ""⟩ =
      textEnvelope ("Error getting git diff: " ++ "bad ref")) := by
  refine ⟨?_, ?_, ?_⟩
  · exact (c4_failure_asymmetry "master" false true
      ⟨Except.ok "f", Except.ok "", Except.error "x", Except.ok ""⟩).1 "x" rfl
  · exact (c4_failure_asymmetry "master" true false
      ⟨Except.ok "f", Except.ok "", Except.ok "", Except.error "boom"⟩).2.1
      "f" "" "boom" rfl rfl rfl
  · exact (c4_failure_asymmetry "master" true true
      ⟨Except.ok "f", Except.error "bad ref", Except.ok "", Except.ok ""⟩).2.2
      "f" "bad ref" rfl rfl

/-- C7: when the branch query succeeds and the changed-file query
succeeds with an output containing no changed file, the call reports
`**Files Changed:** 0` (that string occurs in the output) and the text is
exactly header + count + commits section + diff section, the
changed-files part being the empty string — no `## Changed Files`
section exists. -/
theorem c7_zero_changed_files (branch : String) (includeDiff includeCommits : Bool)
    (g : GitOracle) (cb fo : String)
    (hcb : g.currentBranch = Except.ok cb) (hfo : g.filesOutput = Except.ok fo)
    (hzero : changedFilesOf fo = []) :
    getGitDiff branch includeDiff includeCommits g = textEnvelope
      (gitDiffText branch (jsTrim cb) [] includeCommits g.commits includeDiff g.diff) ∧
    changedFilesSection [] = "" ∧
    occursIn "**Files Changed:** 0"
      (gitDiffText branch (jsTrim cb) [] includeCommits g.commits includeDiff g.diff) := by
  obtain ⟨cb0, fo0, cm0, df0⟩ := g
  cases hcb
  cases hfo
  refine ⟨?_, by simp [changedFilesSection], ?_⟩
  · show textEnvelope (gitDiffText _ _ _ _ _ _ _) = _
    rw [hzero]
  · rw [occursIn_iff_hasSub]
    rw [gitDiffText]
    have hsplit : ("**Files Changed:** 0" : String).data
        = ("**Files Changed:** " : String).data ++ ("0" : String).data := by decide
    rw [hasSub_iff, hsplit]
    refine ⟨("# Git Diff: " ++ jsTrim cb ++ " → " ++ branch ++ "\n\n").data,
      ("\n\n" ++ changedFilesSection [] ++ commitsSection includeCommits cm0 ++
        diffSection includeDiff df0).data, ?_⟩
    simp [String.data_append, List.append_assoc,
      show (toString (0 : Nat) : String).data = ['0'] from by decide]

/-- Witness for C7 at a concrete repository state with zero changed
files: the equality holds, and the concrete output text provably does
not contain `## Changed Files` anywhere. -/
theorem c7_zero_changed_files_witness :
    (getGitDiff "master" true true
        ⟨Except.ok "feat", Except.ok "", Except.ok "", Except.ok ""⟩ = textEnvelope
        (gitDiffText "master" (jsTrim "feat") [] true (Except.ok "") true (Except.ok ""))) ∧
    occursIn "**Files Changed:** 0"
      (gitDiffText "master" (jsTrim "feat") [] true (Except.ok "") true (Except.ok "")) ∧
    ¬ occursIn "## Changed Files"
      (gitDiffText "master" (jsTrim "feat") [] true (Except.ok "") true (Except.ok "")) := by
  have h := c7_zero_changed_files "master" true true
    ⟨Except.ok "feat", Except.ok "", Except.ok "", Except.ok ""⟩ "feat" ""
    rfl rfl (by decide)
  refine ⟨h.1, h.2.2, ?_⟩
  rw [occursIn_iff_hasSub]
  decide

/-! ## `get_package_info` (src/index.ts lines 296–344) -/

/-- Parsed shape of a package manifest as the handler consumes it. -/
structure Pkg where
  name : String
  version : String
  dependencies : List String
  devDependencies : List String
deriving DecidableEq, Repr

/-- The manifest loop (source lines 308–321): read, then parse, each
matched `package.json`; a read or parse failure throws to the handler
catch, discarding everything; a parsed package is kept when no name
filter is given or the name matches. -/
def collectPackages (packageName : Option String)
    (readFn : String → Except String String)
    (parseFn : String → Except String Pkg) :
    List String → Except String (List (String × Pkg))
  | [] => .ok []
  | file :: rest =>
    match readFn file with
    | .error e => .error e
    | .ok content =>
      match parseFn content with
      | .error e => .error e
      | .ok pkg =>
        match collectPackages packageName readFn parseFn rest with
        | .error e => .error e
        | .ok tail =>
          .ok (if (match packageName with
                   | none => true
                   | some n => pkg.name == n)
               then (file, pkg) :: tail else tail)

/-- Rendering of one package entry (source line 328). -/
def pkgEntry (file : String) (pkg : Pkg) : String :=
  "## " ++ pkg.name ++ " v" ++ pkg.version ++ "\n**File:** " ++ file ++
    "\n**Dependencies:** " ++ toString pkg.dependencies.length ++
    "\n**Dev Dependencies:** " ++ toString pkg.devDependencies.length ++ "\n"

/-- The text of a successful `get_package_info` call
(source lines 327–329). -/
def packageInfoText (packages : List (String × Pkg)) : String :=
  "Found " ++ toString packages.length ++ " packages:\n\n" ++
    jsJoin "\n" (packages.map fun fp => pkgEntry fp.1 fp.2)

/-- Body of `get_package_info` (source lines 304–329). -/
def getPackageInfoBody (packageName : Option String)
    (globRes : Except String (List String))
    (readFn : String → Except String String)
    (parseFn : String → Except String Pkg) : Except String String := do
  let packageFiles ← globRes
  let packages ← collectPackages packageName readFn parseFn packageFiles
  pure (packageInfoText packages)

/-- The `get_package_info` handler (source lines 302–343). -/
def getPackageInfo (packageName : Option String)
    (globRes : Except String (List String))
    (readFn : String → Except String String)
    (parseFn : String → Except String Pkg) : Envelope :=
  wrapResult "Error getting package info: "
    (getPackageInfoBody packageName globRes readFn parseFn)

/-- The manifest loop halts with the first failing manifest's error. -/
theorem collectPackages_error (packageName : Option String)
    (readFn : String → Except String String)
    (parseFn : String → Except String Pkg) :
    ∀ (pre : List String) (f : String) (post : List String) (c e : String),
      (∀ x ∈ pre, ∃ cx px, readFn x = Except.ok cx ∧ parseFn cx = Except.ok px) →
      readFn f = Except.ok c → parseFn c = Except.error e →
      collectPackages packageName readFn parseFn (pre ++ f :: post) = Except.error e := by
  intro pre
  induction pre with
  | nil =>
    intro f post c e _ hread hparse
    simp [collectPackages, hread, hparse]
  | cons x pre ih =>
    intro f post c e hpre hread hparse
    obtain ⟨cx, px, h1, h2⟩ := hpre x (List.mem_cons_self x pre)
    have hrest := ih f post c e (fun y hy => hpre y (List.mem_cons_of_mem x hy)) hread hparse
    simp [collectPackages, h1, h2, hrest]

/-- C8: if any matched manifest fails to parse (all manifests before it
reading and parsing fine), the whole `get_package_info` call fails: the
result is exactly the error-description envelope carrying that parse
error — no package list, in particular none of the manifests parsed
before the failing one, appears in the output. -/
theorem c8_package_parse_fatal (packageName : Option String)
    (readFn : String → Except String String)
    (parseFn : String → Except String Pkg)
    (pre : List String) (f : String) (post : List String) (c e : String)
    (hpre : ∀ x ∈ pre, ∃ cx px, readFn x = Except.ok cx ∧ parseFn cx = Except.ok px)
    (hread : readFn f = Except.ok c) (hparse : parseFn c = Except.error e) :
    getPackageInfo packageName (Except.ok (pre ++ f :: post)) readFn parseFn
      = textEnvelope ("Error getting package info: " ++ e) := by
  rw [getPackageInfo, getPackageInfoBody]
  show wrapResult _ (collectPackages packageName readFn parseFn (pre ++ f :: post) >>= _) = _
  rw [collectPackages_error packageName readFn parseFn pre f post c e hpre hread hparse]
  rfl

/-- Witness for C8: two manifests, the first fine, the second failing to
parse — the call returns only the parse-error envelope. -/
theorem c8_package_parse_fatal_witness :
    getPackageInfo none (Except.ok (["good"] ++ "bad" :: []))
        (fun f => Except.ok f)
        (fun content => if content = "good"
          then Except.ok ⟨"a", "1.0.0", [], []⟩
          else Except.error "Unexpected token")
      = textEnvelope ("Error getting package info: " ++ "Unexpected token") := by
  refine c8_package_parse_fatal none _ _ ["good"] "bad" [] "bad" "Unexpected token"
    ?_ rfl rfl
  intro x hx
  rcases List.mem_singleton.mp hx with rfl
  exact ⟨"good", ⟨"a", "1.0.0", [], []⟩, rfl, rfl⟩

/-! ## `generate_pr_description` and `get_pr_ai_prompt`
(src/index.ts lines 435–592 and 597–717) -/

/-- Outcomes of the queries the PR tools make: the three git queries
(awaited bare) plus the template-file read and the optional diff (both
guarded locally). -/
structure PrOracle where
  currentBranch : Except String String
  filesOutput : Except String String
  commits : Except String String
  templateFile : Except String String
  diff : Except String String

/-- `commits.trim().split('\n').filter(c => c.length > 0)`
(source lines 458 and 619). -/
def commitLinesOf (commits : String) : List String :=
  (jsSplit (jsTrim commits) '\n').filter fun c => 0 < c.length

/-- The built-in fallback template of `generate_pr_description`
(source lines 469–482). -/
def defaultPrTemplateGen : String :=
  "## Problem\n<!-- Describe the problem this PR solves -->\n\n" ++
  "## Solution\n<!-- Describe the solution implemented -->\n\n" ++
  "## Changes\n<!-- List the main changes made -->\n\n" ++
  "## Testing\n<!-- Describe how this was tested -->\n\n" ++
  "## Screenshots (if applicable)\n<!-- Add screenshots if UI changes were made -->"

/-- The built-in fallback template of `get_pr_ai_prompt`
(source lines 627–637). -/
def defaultPrTemplatePrompt : String :=
  "## Problem\n<!-- Describe the problem this PR addresses -->\n\n" ++
  "## Solution\n<!-- Describe the solution implemented -->\n\n" ++
  "## Changes\n<!-- List the main changes made -->\n\n" ++
  "## Testing\n<!-- Describe how this was tested -->"

/-- The AI prompt both PR tools assemble (source lines 509–540 and
652–683; the two template literals are identical). -/
def aiPromptText (currentBranchName targetBranch : String)
    (changedFiles commitMessages : List String)
    (diffContent prTemplate : String) : String :=
  "You are an expert developer helping to generate a pull request description. \n\n" ++
  "Based on the following information, generate a comprehensive PR description " ++
  "that follows the provided template structure:\n\n" ++
  "**Branch Information:**\n- Current Branch: " ++ currentBranchName ++
  "\n- Target Branch: " ++ targetBranch ++
  "\n- Files Changed: " ++ toString changedFiles.length ++
  "\n\n**Changed Files:**\n" ++
  jsJoin "\n" (changedFiles.map fun file => "- " ++ file) ++
  "\n\n**Commit Messages:**\n" ++
  jsJoin "\n" (commitMessages.map fun commit => "- " ++ commit) ++
  "\n\n" ++
  (if diffContent = "" then ""
   else "**Diff Content:**\n```diff\n" ++ diffContent ++ "\n```") ++
  "\n\n**PR Template to Follow:**\n" ++ prTemplate ++
  "\n\nPlease generate a PR description that:\n" ++
  "1. Follows the template structure exactly\n" ++
  "2. Accurately describes the changes made\n" ++
  "3. Is professional and clear\n" ++
  "4. Includes specific details about what was changed\n" ++
  "5. Mentions any breaking changes if applicable\n" ++
  "6. Suggests testing approaches if relevant\n\n" ++
  "Generate the complete PR description now:"

/-- The output text of `generate_pr_description`
(source lines 544–571). -/
def genPrOutputText (currentBranchName targetBranch : String)
    (changedFiles commitMessages : List String)
    (prTemplate diffContent : String) : String :=
  "# AI-Generated PR Description\n\n**Note:** This is a template-based generation. " ++
  "In a real implementation, this would call an AI service.\n\n" ++
  "## Context for AI Generation:\n\n**Branch:** " ++ currentBranchName ++ " → " ++
  targetBranch ++ "\n**Files Changed:** " ++ toString changedFiles.length ++
  "\n\n**Changed Files:**\n" ++
  jsJoin "\n" (changedFiles.map fun file => "- " ++ file) ++
  "\n\n**Commits:**\n" ++
  jsJoin "\n" (commitMessages.map fun commit => "- " ++ commit) ++
  "\n\n**PR Template:**\n" ++ prTemplate ++
  "\n\n**AI Prompt:**\n" ++
  aiPromptText currentBranchName targetBranch changedFiles commitMessages
    diffContent prTemplate ++
  "\n\n---\n\n**To complete this implementation, you would need to:**\n" ++
  "1. Add an AI service integration (OpenAI, Anthropic, etc.)\n" ++
  "2. Replace this template output with actual AI-generated content\n" ++
  "3. Handle API errors and rate limiting\n" ++
  "4. Add configuration for AI model selection"

/-- The output text of `get_pr_ai_prompt` (source lines 689–702). -/
def prAiPromptOutputText (aiPrompt : String) : String :=
  "# AI Prompt for PR Description Generation\n\n" ++
  "Copy the following prompt and paste it into Cursor's AI chat:\n\n---\n\n" ++
  aiPrompt ++
  "\n\n---\n\n**Instructions:**\n1. Copy the prompt above\n" ++
  "2. Paste it into Cursor's AI chat\n" ++
  "3. The AI will generate a complete PR description following your template"

/-- Body of `generate_pr_description` (source lines 445–580): branch,
changed files and commit log are awaited bare — any of their failures
aborts to the catch — while template read and diff are guarded locally. -/
def generatePrDescriptionBody (branch : String) (includeDiff : Bool)
    (template : Option String) (o : PrOracle) : Except String String := do
  let currentBranch ← o.currentBranch
  let filesOutput ← o.filesOutput
  let commits ← o.commits
  let prTemplate :=
    match template with
    | some t => t
    | none =>
      match o.templateFile with
      | .ok t => t
      | .error _ => defaultPrTemplateGen
  let diffContent :=
    if includeDiff then
      match o.diff with
      | .ok d => d
      | .error _ => ""
    else ""
  pure (genPrOutputText (jsTrim currentBranch) branch (changedFilesOf filesOutput)
    (commitLinesOf commits) prTemplate diffContent)

/-- The `generate_pr_description` handler (source lines 443–591). -/
def generatePrDescription (branch : String) (includeDiff : Bool)
    (template : Option String) (o : PrOracle) : Envelope :=
  wrapResult "Error generating PR description: "
    (generatePrDescriptionBody branch includeDiff template o)

/-- Body of `get_pr_ai_prompt` (source lines 606–705): same bare awaits
for branch, changed files and commit log. -/
def getPrAiPromptBody (branch : String) (includeDiff : Bool)
    (o : PrOracle) : Except String String := do
  let currentBranch ← o.currentBranch
  let filesOutput ← o.filesOutput
  let commits ← o.commits
  let prTemplate :=
    match o.templateFile with
    | .ok t => t
    | .error _ => defaultPrTemplatePrompt
  let diffContent :=
    if includeDiff then
      match o.diff with
      | .ok d => d
      | .error _ => ""
    else ""
  pure (prAiPromptOutputText (aiPromptText (jsTrim currentBranch) branch
    (changedFilesOf filesOutput) (commitLinesOf commits) diffContent prTemplate))

/-- The `get_pr_ai_prompt` handler (source lines 604–716). -/
def getPrAiPrompt (branch : String) (includeDiff : Bool) (o : PrOracle) : Envelope :=
  wrapResult "Error getting AI prompt: " (getPrAiPromptBody branch includeDiff o)

/-- C9: in `generate_pr_description` and `get_pr_ai_prompt` the commit
log is awaited bare, so its failure aborts the whole call to the
top-level catch and the result is only the error-description envelope;
in `get_git_diff` the same query is guarded, so its failure leaves the
call successful with the Commits section simply absent (the section
renders as the empty string). -/
theorem c9_commit_log_fatal (branch : String) (includeDiff : Bool)
    (template : Option String) (o : PrOracle) (g : GitOracle)
    (cb fo e : String) :
    (o.currentBranch = Except.ok cb → o.filesOutput = Except.ok fo →
      o.commits = Except.error e →
      generatePrDescription branch includeDiff template o
          = textEnvelope ("Error generating PR description: " ++ e) ∧
        getPrAiPrompt branch includeDiff o
          = textEnvelope ("Error getting AI prompt: " ++ e)) ∧
    (g.currentBranch = Except.ok cb → g.filesOutput = Except.ok fo →
      g.commits = Except.error e →
      getGitDiff branch includeDiff true g = textEnvelope
        (gitDiffText branch (jsTrim cb) (changedFilesOf fo) true
          (Except.error e) includeDiff g.diff) ∧
      commitsSection true (Except.error e) = "") := by
  obtain ⟨ocb, ofo, ocm, otf, odf⟩ := o
  obtain ⟨gcb, gfo, gcm, gdf⟩ := g
  constructor
  · rintro rfl rfl rfl
    exact ⟨rfl, rfl⟩
  · rintro rfl rfl rfl
    exact ⟨rfl, by simp [commitsSection]⟩

/-- Witness for C9 at concrete oracles: the two PR tools return only the
error envelope while `get_git_diff`, with the very same query outcomes,
still succeeds. -/
theorem c9_commit_log_fatal_witness :
    (generatePrDescription "master" false none
        ⟨Except.ok "f", Except.ok "", Except.error "log failed",
          Except.ok "tpl", Except.ok ""⟩
      = textEnvelope ("Error generating PR description: " ++ "log failed")) ∧
    (getPrAiPrompt "master" false
        ⟨Except.ok "f", Except.ok "", Except.error "log failed",
          Except.ok "tpl", Except.ok ""⟩
      = textEnvelope ("Error getting AI prompt: " ++ "log failed")) ∧
    (getGitDiff "master" false true
        ⟨Except.ok "f", Except.ok "", Except.error "log failed", Except.ok ""⟩
      = textEnvelope (gitDiffText "master" (jsTrim "f") (changedFilesOf "") true
          (Except.error "log failed") false (Except.ok ""))) := by
  have h := c9_commit_log_fatal "master" false none
    ⟨Except.ok "f", Except.ok "", Except.error "log failed", Except.ok "tpl", Except.ok ""⟩
    ⟨Except.ok "f", Except.ok "", Except.error "log failed", Except.ok ""⟩
    "f" "" "log failed"
  obtain ⟨h1, h2⟩ := h.1 rfl rfl rfl
  exact ⟨h1, h2, (h.2 rfl rfl rfl).1⟩

/-! ## `search_files`, `find_components`, `get_project_structure`,
`find_test_files` handlers (src/index.ts lines 51–85, 88–132, 180–234,
237–293) -/

/-- Body of `search_files` (source lines 59–73); the `directory`
argument only scopes the glob, which the oracle result reflects. -/
def searchFilesBody (pattern : String)
    (globRes : Except String (List String)) : Except String String := do
  let files ← globRes
  pure ("Found " ++ toString files.length ++ " files matching pattern \"" ++ pattern ++
    "\":\n\n" ++ jsJoin "\n" (files.map fun file => "- " ++ file))

/-- The `search_files` handler (source lines 58–84). -/
def searchFiles (pattern : String) (globRes : Except String (List String)) : Envelope :=
  wrapResult "Error searching files: " (searchFilesBody pattern globRes)

/-- The component glob pattern (source lines 103–105). -/
def componentPattern : Option String → String
  | some n => "**/*" ++ n ++ "*.tsx"
  | none => "**/*.tsx"

/-- The directory loop of `find_components` (source lines 101–109):
glob under each trimmed directory, prefixing each result with the
untrimmed directory name; a failing glob throws to the catch. -/
def collectComponents (globFn : String → String → Except String (List String))
    (pattern : String) : List String → Except String (List String)
  | [] => .ok []
  | dir :: rest =>
    match globFn (jsTrim dir) pattern with
    | .error e => .error e
    | .ok files =>
      match collectComponents globFn pattern rest with
      | .error e => .error e
      | .ok tail => .ok (files.map (fun file => dir ++ "/" ++ file) ++ tail)

/-- Body of `find_components` (source lines 96–119). -/
def findComponentsBody (name : Option String) (directory : String)
    (globFn : String → String → Except String (List String)) :
    Except String String := do
  let results ← collectComponents globFn (componentPattern name) (jsSplit directory ',')
  pure ("Found " ++ toString results.length ++ " React components:\n\n" ++
    jsJoin "\n" (results.map fun file => "- " ++ file))

/-- The `find_components` handler (source lines 95–131). -/
def findComponents (name : Option String) (directory : String)
    (globFn : String → String → Except String (List String)) : Envelope :=
  wrapResult "Error finding components: " (findComponentsBody name directory globFn)

/-- Body of `get_project_structure` (source lines 188–221): the
directory walk either fails as a whole (readdir/stat error) or yields
the tree, which is rendered by `analyzeDir`. -/
def getProjectStructureBody (directory : String) (maxDepth : Nat)
    (treeRes : Except String (List FSEntry)) : Except String String := do
  let entries ← treeRes
  pure ("Project structure for " ++ directory ++ ":\n\n" ++ analyzeDir maxDepth entries 0)

/-- The `get_project_structure` handler (source lines 187–233). -/
def getProjectStructure (directory : String) (maxDepth : Nat)
    (treeRes : Except String (List FSEntry)) : Envelope :=
  wrapResult "Error getting project structure: "
    (getProjectStructureBody directory maxDepth treeRes)

/-- The `${type}` interpolation of the `find_test_files` header. -/
def testTypeName : TestType → String
  | .unit => "unit"
  | .integration => "integration"
  | .e2e => "e2e"
  | .all => "all"

/-- Body of `find_test_files` (source lines 244–280) over the project
file list; a failed glob throws to the catch. -/
def findTestFilesBody (t : TestType) (fsRes : Except String (List String)) :
    Except String String := do
  let fs ← fsRes
  pure ("Found " ++ toString (findTestFiles fs t).length ++ " " ++ testTypeName t ++
    " test files:\n\n" ++ jsJoin "\n" ((findTestFiles fs t).map fun file => "- " ++ file))

/-- The `find_test_files` handler (source lines 243–292). -/
def findTestFilesHandler (t : TestType) (fsRes : Except String (List String)) : Envelope :=
  wrapResult "Error finding test files: " (findTestFilesBody t fsRes)

/-- A wrapped result is always a single-text envelope. -/
theorem wrapResult_shape (errPrefix : String) (b : Except String String) :
    ∃ t, (wrapResult errPrefix b).content = [ContentItem.text t] := by
  cases b with
  | ok s => exact ⟨s, rfl⟩
  | error e => exact ⟨errPrefix ++ e, rfl⟩

/-- C3: in every one of the nine tool handlers, an internal failure of
the handler body (filesystem error, subprocess failure, parse error) is
caught and converted into a response envelope whose text is the
handler's error prefix followed by the failure message — the handlers
are total functions into the envelope type, so no exception passes the
handler boundary and the protocol level never signals failure. -/
theorem c3_error_to_text :
    (∀ pattern globRes e, searchFilesBody pattern globRes = Except.error e →
      searchFiles pattern globRes = textEnvelope ("Error searching files: " ++ e)) ∧
    (∀ name directory globFn e, findComponentsBody name directory globFn = Except.error e →
      findComponents name directory globFn
        = textEnvelope ("Error finding components: " ++ e)) ∧
    (∀ feature globFn readFn e, getGraphqlSchemasBody feature globFn readFn = Except.error e →
      getGraphqlSchemas feature globFn readFn
        = textEnvelope ("Error getting GraphQL schemas: " ++ e)) ∧
    (∀ directory maxDepth treeRes e,
      getProjectStructureBody directory maxDepth treeRes = Except.error e →
      getProjectStructure directory maxDepth treeRes
        = textEnvelope ("Error getting project structure: " ++ e)) ∧
    (∀ t fsRes e, findTestFilesBody t fsRes = Except.error e →
      findTestFilesHandler t fsRes = textEnvelope ("Error finding test files: " ++ e)) ∧
    (∀ packageName globRes readFn parseFn e,
      getPackageInfoBody packageName globRes readFn parseFn = Except.error e →
      getPackageInfo packageName globRes readFn parseFn
        = textEnvelope ("Error getting package info: " ++ e)) ∧
    (∀ branch includeDiff includeCommits g e,
      getGitDiffBody branch includeDiff includeCommits g = Except.error e →
      getGitDiff branch includeDiff includeCommits g
        = textEnvelope ("Error getting git diff: " ++ e)) ∧
    (∀ branch includeDiff template o e,
      generatePrDescriptionBody branch includeDiff template o = Except.error e →
      generatePrDescription branch includeDiff template o
        = textEnvelope ("Error generating PR description: " ++ e)) ∧
    (∀ branch includeDiff o e, getPrAiPromptBody branch includeDiff o = Except.error e →
      getPrAiPrompt branch includeDiff o
        = textEnvelope ("Error getting AI prompt: " ++ e)) := by
  refine ⟨?_, ?_, ?_, ?_, ?_, ?_, ?_, ?_, ?_⟩
  · intro pattern globRes e h; simp only [searchFiles, h]; rfl
  · intro name directory globFn e h; simp only [findComponents, h]; rfl
  · intro feature globFn readFn e h; simp only [getGraphqlSchemas, h]; rfl
  · intro directory maxDepth treeRes e h; simp only [getProjectStructure, h]; rfl
  · intro t fsRes e h; simp only [findTestFilesHandler, h]; rfl
  · intro packageName globRes readFn parseFn e h; simp only [getPackageInfo, h]; rfl
  · intro branch includeDiff includeCommits g e h; simp only [getGitDiff, h]; rfl
  · intro branch includeDiff template o e h; simp only [generatePrDescription, h]; rfl
  · intro branch includeDiff o e h; simp only [getPrAiPrompt, h]; rfl

/-- Witness for C3: each of the nine handlers, hit with a concrete
failing query, returns exactly its error-description envelope. -/
theorem c3_error_to_text_witness :
    searchFiles "*.ts" (Except.error "fs gone")
        = textEnvelope ("Error searching files: " ++ "fs gone") ∧
    findComponents none "apps" (fun _ _ => Except.error "fs gone")
        = textEnvelope ("Error finding components: " ++ "fs gone") ∧
    getGraphqlSchemas none (fun _ => Except.error "fs gone") (fun _ => Except.ok "")
        = textEnvelope ("Error getting GraphQL schemas: " ++ "fs gone") ∧
    getProjectStructure "." 3 (Except.error "ENOENT")
        = textEnvelope ("Error getting project structure: " ++ "ENOENT") ∧
    findTestFilesHandler TestType.all (Except.error "fs gone")
        = textEnvelope ("Error finding test files: " ++ "fs gone") ∧
    getPackageInfo none (Except.error "fs gone") (fun _ => Except.ok "")
        (fun _ => Except.error "bad json")
        = textEnvelope ("Error getting package info: " ++ "fs gone") ∧
    getGitDiff "master" true true
        ⟨Except.ok "f", Except.error "bad ref", Except.ok "", Except.ok ""⟩
        = textEnvelope ("Error getting git diff: " ++ "bad ref") ∧
    generatePrDescription "master" false none
        ⟨Except.error "git gone", Except.ok "", Except.ok "", Except.ok "", Except.ok ""⟩
        = textEnvelope ("Error generating PR description: " ++ "git gone") ∧
    getPrAiPrompt "master" false
        ⟨Except.error "git gone", Except.ok "", Except.ok "", Except.ok "", Except.ok ""⟩
        = textEnvelope ("Error getting AI prompt: " ++ "git gone") := by
  obtain ⟨h1, h2, h3, h4, h5, h6, h7, h8, h9⟩ := c3_error_to_text
  exact ⟨h1 "*.ts" _ "fs gone" rfl,
    h2 none "apps" _ "fs gone" rfl,
    h3 none _ _ "fs gone" rfl,
    h4 "." 3 _ "ENOENT" rfl,
    h5 TestType.all _ "fs gone" rfl,
    h6 none _ _ _ "fs gone" rfl,
    h7 "master" true true _ "bad ref" rfl,
    h8 "master" false none _ "git gone" rfl,
    h9 "master" false _ "git gone" rfl⟩

/-- C10: every tool handler, on every input and every query outcome,
returns an envelope whose content is exactly one item, and that item is
a text item — never zero, several, or non-text items. -/
theorem c10_single_text_item :
    (∀ pattern globRes, ∃ t,
      (searchFiles pattern globRes).content = [ContentItem.text t]) ∧
    (∀ name directory globFn, ∃ t,
      (findComponents name directory globFn).content = [ContentItem.text t]) ∧
    (∀ feature globFn readFn, ∃ t,
      (getGraphqlSchemas feature globFn readFn).content = [ContentItem.text t]) ∧
    (∀ directory maxDepth treeRes, ∃ t,
      (getProjectStructure directory maxDepth treeRes).content = [ContentItem.text t]) ∧
    (∀ ty fsRes, ∃ t,
      (findTestFilesHandler ty fsRes).content = [ContentItem.text t]) ∧
    (∀ packageName globRes readFn parseFn, ∃ t,
      (getPackageInfo packageName globRes readFn parseFn).content
        = [ContentItem.text t]) ∧
    (∀ branch includeDiff includeCommits g, ∃ t,
      (getGitDiff branch includeDiff includeCommits g).content = [ContentItem.text t]) ∧
    (∀ branch includeDiff template o, ∃ t,
      (generatePrDescription branch includeDiff template o).content
        = [ContentItem.text t]) ∧
    (∀ branch includeDiff o, ∃ t,
      (getPrAiPrompt branch includeDiff o).content = [ContentItem.text t]) :=
  ⟨fun _ _ => wrapResult_shape _ _,
    fun _ _ _ => wrapResult_shape _ _,
    fun _ _ _ => wrapResult_shape _ _,
    fun _ _ _ => wrapResult_shape _ _,
    fun _ _ => wrapResult_shape _ _,
    fun _ _ _ _ => wrapResult_shape _ _,
    fun _ _ _ _ => wrapResult_shape _ _,
    fun _ _ _ _ => wrapResult_shape _ _,
    fun _ _ _ => wrapResult_shape _ _⟩

end DevWebMCP
